import Mathlib

/-!
Verification of the DDR document-structuring engine against its
natural-language specification.

The Python source (src/DDR/src/pdf_extractor.py and
src/DDR/src/data_processor.py) is shallowly embedded below.  Pure text
processing is modelled over `List Char` (one entry per Unicode code point,
matching Python string indexing and slicing), records that the Python code
builds as dicts are modelled as structures in which a field of type
`Option _` set to `none` models an absent dict key, and the regular
expressions used by the code are embedded as executable matching functions
that implement the exact backtracking semantics of the concrete patterns
appearing in the source.

Notes on modelling choices:
* Python `\s` also matches some non-ASCII whitespace; the embedding uses
  the ASCII whitespace set (space, tab, newline, carriage return, vertical
  tab, form feed), which is faithful on the ASCII documents the patterns
  target.
* Python floats are modelled as exact rationals; `float(...)` parsing is
  modelled for finite decimal/exponent literals (the only shapes the
  thermal regexes can produce), and `"%.1f"` formatting as exact
  round-half-even to one decimal place.
* All recursive definitions are structural (or consume explicit fuel that
  is always supplied sufficiently), so every definition evaluates inside
  the kernel.
-/

set_option maxRecDepth 100000

namespace DDR

/-! ## Basic Python-style character and string utilities -/

/-- Python `\s` (ASCII fragment): the whitespace class used by `str.strip`
and by `\s` in the regexes of the source. -/
def isPySpace (c : Char) : Bool :=
  c = ' ' || c = '\t' || c = '\n' || c = '\r' || c = '\x0b' || c = '\x0c'

/-- Characters matched by the regex class `[ \t]`. -/
def isBlankCh (c : Char) : Bool := c = ' ' || c = '\t'

/-- Python `str.isdigit` on ASCII: the character is a decimal digit. -/
def isDigitCh (c : Char) : Bool := '0' ≤ c && c ≤ '9'

/-- Characters matched by the regex class `[\d.]`. -/
def isDigitDot (c : Char) : Bool := isDigitCh c || c = '.'

/-- Drop leading Python whitespace (the left half of `str.strip`). -/
def dropLeadWs (l : List Char) : List Char := l.dropWhile isPySpace

/-- Python `str.strip()` on a character list. -/
def pyStripL (l : List Char) : List Char :=
  ((l.dropWhile isPySpace).reverse.dropWhile isPySpace).reverse

/-- Python `str.strip()`. -/
def pyStrip (s : String) : String := ⟨pyStripL s.data⟩

/-- Python slicing `s[:n]` for `n ≥ 0`. -/
def pyTake (n : Nat) (s : String) : String := ⟨s.data.take n⟩

/-- Python `str.isdigit` (ASCII): nonempty and all decimal digits. -/
def pyIsDigit (s : String) : Bool := !s.data.isEmpty && s.data.all isDigitCh

/-- Value of a decimal digit character. -/
def digitVal (c : Char) : Nat := c.toNat - '0'.toNat

/-- Python `int(...)` on a string of decimal digits. -/
def natOfDigits (l : List Char) : Nat := l.foldl (fun a c => a * 10 + digitVal c) 0

/-- Split a character list on a separator character; mirrors Python
`str.split(sep)` for a one-character separator (always at least one
segment, empty segments preserved). -/
def splitOnCh (sep : Char) : List Char → List (List Char)
  | [] => [[]]
  | c :: t =>
    if c = sep then [] :: splitOnCh sep t
    else
      match splitOnCh sep t with
      | [] => [[c]]
      | l :: ls => (c :: l) :: ls

/-- Join segments with a separator character; mirrors Python
`sep.join(...)` for a one-character separator. -/
def joinWithCh (sep : Char) : List (List Char) → List Char
  | [] => []
  | [l] => l
  | l :: ls => l ++ sep :: joinWithCh sep ls

/-- Python `"\n".join` on strings. -/
def pyJoinNL (l : List String) : String := ⟨joinWithCh '\n' (l.map String.data)⟩

/-- Case-insensitive character comparison, as Python `re.IGNORECASE`
behaves on ASCII. -/
def chEqCI (a b : Char) : Bool := a.toLower = b.toLower

/-- Does `t` start with `p` (case sensitive)? -/
def startsWithL : List Char → List Char → Bool
  | [], _ => true
  | _ :: _, [] => false
  | p :: ps, c :: cs => p = c && startsWithL ps cs

/-- Executable substring test: does `p` occur contiguously inside `t`?
This models the Python `in` operator / the notion of literal substring. -/
def isSubstr (p : List Char) : List Char → Bool
  | [] => startsWithL p []
  | c :: t => startsWithL p (c :: t) || isSubstr p t

/-- String-level substring test. -/
def strContains (needle hay : String) : Bool := isSubstr needle.data hay.data

/-! ## Text Normalizer: `clean_extracted_text` (pdf_extractor.py lines 109-129)

The function applies, in order:
1. `re.sub(r'[ \t]+', ' ', text)`
2. `re.sub(r'\n{3,}', '\n\n', text)`
3. `re.sub(r'-\s*\n\s*', '', text)`
4. per-line `str.strip()` rejoined with `'\n'`
5. a final `str.strip()`.
-/

/-- Step 1, with a flag recording whether the previous character was part
of a `[ \t]` run (in which case further run characters are dropped). -/
def collapseSpacesGo : Bool → List Char → List Char
  | _, [] => []
  | prevBlank, c :: t =>
    if isBlankCh c then
      if prevBlank then collapseSpacesGo true t
      else ' ' :: collapseSpacesGo true t
    else c :: collapseSpacesGo false t

/-- `re.sub(r'[ \t]+', ' ', text)`: each maximal run of spaces/tabs
becomes a single space. -/
def collapseSpaces (l : List Char) : List Char := collapseSpacesGo false l

/-- Step 2, with a counter of newlines already emitted in the current
newline run (newlines beyond the second in a run are dropped). -/
def collapseNLGo : Nat → List Char → List Char
  | _, [] => []
  | n, c :: t =>
    if c = '\n' then
      if n < 2 then '\n' :: collapseNLGo (n + 1) t
      else collapseNLGo n t
    else c :: collapseNLGo 0 t

/-- `re.sub(r'\n{3,}', '\n\n', text)`: each maximal run of three or more
newlines becomes exactly two. -/
def collapseNL (l : List Char) : List Char := collapseNLGo 0 l

/-- Step 3.  For the pattern `-\s*\n\s*` with greedy `\s*`, a match at a
hyphen consumes the hyphen together with the whole maximal whitespace run
following it, and exists exactly when that run contains a newline;
`re.sub` then continues scanning after the removed run.  The fuel is
always called with more than the length of the list, so it never runs
out; each step consumes at least one character. -/
def removeHyphenGo : Nat → List Char → List Char
  | 0, s => s
  | _ + 1, [] => []
  | fuel + 1, c :: t =>
    if c = '-' && (t.takeWhile isPySpace).contains '\n' then
      removeHyphenGo fuel (t.dropWhile isPySpace)
    else c :: removeHyphenGo fuel t

/-- `re.sub(r'-\s*\n\s*', '', text)`. -/
def removeHyphen (l : List Char) : List Char := removeHyphenGo (l.length + 1) l

/-- Step 4: `'\n'.join(line.strip() for line in text.split('\n'))`. -/
def stripLines (l : List Char) : List Char :=
  joinWithCh '\n' ((splitOnCh '\n' l).map pyStripL)

/-- The full Text Normalizer `clean_extracted_text` on character lists. -/
def cleanL (l : List Char) : List Char :=
  pyStripL (stripLines (removeHyphen (collapseNL (collapseSpaces l))))

/-- `clean_extracted_text` (pdf_extractor.py lines 109-129). -/
def clean_extracted_text (s : String) : String := ⟨cleanL s.data⟩

example : clean_extracted_text "hello   world" = "hello world" := by decide
example : clean_extracted_text "a\n\n\n\n\nb" = "a\n\nb" := by decide
example : clean_extracted_text "word-\nbreak" = "wordbreak" := by decide
example : clean_extracted_text "  x \n y  " = "x\ny" := by decide
example : clean_extracted_text "a\n \n \n \nb" = "a\n\n\n\nb" := by decide
example :
    clean_extracted_text (clean_extracted_text "a\n \n \n \nb") = "a\n\nb" := by decide

/-! ## Embedded regular-expression machinery

A matcher (`Px`) consumes a piece of the input, returning the consumed
characters (in order, with original case, so that captures are faithful)
and the remaining suffix.  The concrete patterns of the source are built
from literal, whitespace-run, character-class, alternation and
optional-with-backtracking combinators; greedy `\s*` runs are
deterministic in every source pattern because the token after them can
never match a whitespace character, and every optional group is compiled
with `pOptThen`, which backtracks exactly like the regex engine. -/

/-- A matcher: consumed characters plus remaining input. -/
abbrev Px := List Char → Option (List Char × List Char)

/-- Match nothing. -/
def pEmpty : Px := fun s => some ([], s)

/-- Sequencing of matchers. -/
def pThen (a b : Px) : Px := fun s =>
  match a s with
  | none => none
  | some (c1, r1) =>
    match b r1 with
    | none => none
    | some (c2, r2) => some (c1 ++ c2, r2)

/-- Ordered alternation (the regex `|`, leftmost branch preferred). -/
def pOr (a b : Px) : Px := fun s =>
  match a s with
  | some x => some x
  | none => b s

/-- Sequence a list of matchers. -/
def pSeq (l : List Px) : Px := l.foldr pThen pEmpty

/-- Greedy optional group followed by a continuation, with backtracking:
regex `a? tail` tries `a` then `tail`, and on failure retries `tail`
without `a`. -/
def pOptThen (a tail : Px) : Px := pOr (pThen a tail) tail

/-- Case-insensitive literal on a character list. -/
def pLitCIGo : List Char → List Char → Option (List Char × List Char)
  | [], s => some ([], s)
  | _ :: _, [] => none
  | p :: ps, c :: cs =>
    if chEqCI p c then (pLitCIGo ps cs).map (fun x => (c :: x.1, x.2)) else none

/-- Case-insensitive literal (how `re.IGNORECASE` matches plain words). -/
def pLitCI (w : String) : Px := pLitCIGo w.data

/-- Case-sensitive literal on a character list. -/
def pLitGo : List Char → List Char → Option (List Char × List Char)
  | [], s => some ([], s)
  | _ :: _, [] => none
  | p :: ps, c :: cs =>
    if p = c then (pLitGo ps cs).map (fun x => (c :: x.1, x.2)) else none

/-- Case-sensitive literal. -/
def pLit (w : String) : Px := pLitGo w.data

/-- One character of a class (regex `\d`, `[ \t]`, ...). -/
def pChar (f : Char → Bool) : Px := fun s =>
  match s with
  | [] => none
  | c :: t => if f c then some ([c], t) else none

/-- Greedy `\s*`; deterministic wherever the following token cannot match
whitespace (true for every use in the source patterns). -/
def pWs : Px := fun s => some (s.takeWhile isPySpace, s.dropWhile isPySpace)

/-- Greedy nonempty run of a character class (regex `[c]+` where the
following token cannot match a class character). -/
def pRun1 (f : Char → Bool) : Px := fun s =>
  let r := s.takeWhile f
  if r.isEmpty then none else some (r, s.dropWhile f)

/-- Regex `\d+`. -/
def pDigits : Px := pRun1 isDigitCh

/-- Regex `\d{n}` (exactly `n` digits; more digits may follow). -/
def pDigitsExact : Nat → Px
  | 0 => pEmpty
  | n + 1 => pThen (pChar isDigitCh) (pDigitsExact n)

/-- Regex `\d{2,4}` at the end of a pattern: greedily up to four digits,
at least two. -/
def pDigits24 : Px := fun s =>
  let r := (s.takeWhile isDigitCh).take 4
  if r.length < 2 then none else some (r, s.drop r.length)

/-- Python `$` without `re.MULTILINE`: matches at the end of the input or
just before a final newline. -/
def pyDollar (rest : List Char) : Bool := rest = [] || rest = ['\n']

/-- Leftmost search: try the matcher at every position, earliest first
(the semantics of `re.search` and of the scan in `re.split`/`re.sub`). -/
def scanSearch (f : List Char → Option α) : List Char → Option α
  | [] => f []
  | c :: t =>
    match f (c :: t) with
    | some a => some a
    | none => scanSearch f t

/-- Lazy `(.*?)(?=stop)` where the lookahead `stop` always eventually
succeeds (every such pattern in the source ends its lookahead with `$`):
consume as little as possible until `stop` holds.  With `re.DOTALL` the
dot also consumes newlines, which this does; the one non-DOTALL use
(device extraction) lists `\n` among its stops. -/
def lazyCapture (stop : List Char → Bool) : List Char → List Char × List Char
  | [] => ([], [])
  | c :: t =>
    if stop (c :: t) then ([], c :: t)
    else
      let x := lazyCapture stop t
      (c :: x.1, x.2)

/-- Lookahead test for a matcher. -/
def laP (p : Px) (s : List Char) : Bool := (p s).isSome

/-- Search for `head (.*?)(?=stop)` and return group 1 (the lazy part). -/
def searchCapUntil (head : Px) (stop : List Char → Bool) (l : List Char) : Option String :=
  scanSearch (fun s =>
    (head s).map (fun x => (⟨(lazyCapture stop x.2).1⟩ : String))) l

/-- Search for `(head.*?)(?=stop)` and return the whole group (head
included). -/
def searchSpanUntil (head : Px) (stop : List Char → Bool) (l : List Char) : Option String :=
  scanSearch (fun s =>
    (head s).map (fun x => (⟨x.1 ++ (lazyCapture stop x.2).1⟩ : String))) l

/-! ## Inspection Structurer: section extraction patterns

Each named definition below embeds one concrete regular expression of
pdf_extractor.py, with the same alternation order. -/

/-- Lookahead `Impacted\s*Area`. -/
def laImpactedArea : List Char → Bool := laP (pSeq [pLitCI "impacted", pWs, pLitCI "area"])

/-- Lookahead `Affected\s*Area`. -/
def laAffectedArea : List Char → Bool := laP (pSeq [pLitCI "affected", pWs, pLitCI "area"])

/-- Lookahead `Observation\s*Area`. -/
def laObservationArea : List Char → Bool := laP (pSeq [pLitCI "observation", pWs, pLitCI "area"])

/-- Lookahead `Area\s*(?:of\s*)?(?:Concern|Inspection)`. -/
def laAreaConcern : List Char → Bool :=
  laP (pThen (pLitCI "area") (pThen pWs
    (pOptThen (pThen (pLitCI "of") pWs) (pOr (pLitCI "concern") (pLitCI "inspection")))))

/-- Lookahead `Area\s*#?\s*\d`. -/
def laAreaHashDigit : List Char → Bool :=
  laP (pThen (pLitCI "area") (pThen pWs
    (pOptThen (pLit "#") (pThen pWs (pChar isDigitCh)))))

/-- Lookahead `Area\s*\d`. -/
def laAreaDigit : List Char → Bool :=
  laP (pSeq [pLitCI "area", pWs, pChar isDigitCh])

/-- Lookahead `Checklists?` (the optional `s` never affects whether the
lookahead holds). -/
def laChecklists : List Char → Bool := laP (pLitCI "checklist")

/-- Lookahead `Check\s*List`. -/
def laCheckList : List Char → Bool := laP (pSeq [pLitCI "check", pWs, pLitCI "list"])

/-- Lookahead `Positive\s*side`. -/
def laPositiveSide : List Char → Bool := laP (pSeq [pLitCI "positive", pWs, pLitCI "side"])

/-- Lookahead `Negative\s*side`. -/
def laNegativeSide : List Char → Bool := laP (pSeq [pLitCI "negative", pWs, pLitCI "side"])

/-- Stop set of site pattern 1:
`(?=Impacted\s*Area|Affected\s*Area|Observation\s*Area|Area\s*(?:of\s*)?(?:Concern|Inspection)|Checklists?|Check\s*List|Findings|$)`. -/
def stopSite1 (s : List Char) : Bool :=
  laImpactedArea s || laAffectedArea s || laObservationArea s || laAreaConcern s ||
  laChecklists s || laCheckList s || laP (pLitCI "findings") s || pyDollar s

/-- Stop set shared by site patterns 2-4:
`(?=Impacted\s*Area|Affected\s*Area|Observation|Area\s*\d|Checklists?|$)`. -/
def stopSite2 (s : List Char) : Bool :=
  laImpactedArea s || laAffectedArea s || laP (pLitCI "observation") s ||
  laAreaDigit s || laChecklists s || pyDollar s

/-- Head of site pattern 1: `Customer\s*Name`. -/
def siteHead1 : Px := pSeq [pLitCI "customer", pWs, pLitCI "name"]

/-- Head of site pattern 2: `Inspection\s*(?:Form|Report|Details?)`. -/
def siteHead2 : Px :=
  pThen (pLitCI "inspection") (pThen pWs
    (pOr (pLitCI "form") (pOr (pLitCI "report")
      (pThen (pLitCI "detail") (pOptThen (pLitCI "s") pEmpty)))))

/-- Head of site pattern 3:
`(?:Site|Property|Project)\s*(?:Details?|Information|Info)`. -/
def siteHead3 : Px :=
  pThen (pOr (pLitCI "site") (pOr (pLitCI "property") (pLitCI "project"))) (pThen pWs
    (pOr (pThen (pLitCI "detail") (pOptThen (pLitCI "s") pEmpty))
      (pOr (pLitCI "information") (pLitCI "info"))))

/-- Head of site pattern 4: `(?:Client|Owner)\s*(?:Name|Details?)`. -/
def siteHead4 : Px :=
  pThen (pOr (pLitCI "client") (pLitCI "owner")) (pThen pWs
    (pOr (pLitCI "name") (pThen (pLitCI "detail") (pOptThen (pLitCI "s") pEmpty))))

/-- `_extract_site_details` (pdf_extractor.py lines 181-196): first
pattern whose search succeeds wins; fallback is the first 800
characters. -/
def extract_site_details (text : String) : String :=
  match searchSpanUntil siteHead1 stopSite1 text.data with
  | some g => pyStrip g
  | none =>
    match searchSpanUntil siteHead2 stopSite2 text.data with
    | some g => pyStrip g
    | none =>
      match searchSpanUntil siteHead3 stopSite2 text.data with
      | some g => pyStrip g
      | none =>
        match searchSpanUntil siteHead4 stopSite2 text.data with
        | some g => pyStrip g
        | none => pyTake 800 text

/-! ## Area-header split patterns (`_extract_impacted_areas`) -/

/-- Turn a head matcher followed by `(\d+)` into a split matcher that
returns the captured digits and the suffix after the whole match. -/
def capDigitsAfter (head : Px) : List Char → Option (String × List Char) := fun s =>
  match head s with
  | none => none
  | some x =>
    match pDigits x.2 with
    | none => none
    | some d => some (⟨d.1⟩, d.2)

/-- `Impacted\s*Area\s*(\d+)`. -/
def areaPat1 : List Char → Option (String × List Char) :=
  capDigitsAfter (pSeq [pLitCI "impacted", pWs, pLitCI "area", pWs])

/-- `Affected\s*Area\s*(\d+)`. -/
def areaPat2 : List Char → Option (String × List Char) :=
  capDigitsAfter (pSeq [pLitCI "affected", pWs, pLitCI "area", pWs])

/-- `Observation\s*Area\s*(\d+)`. -/
def areaPat3 : List Char → Option (String × List Char) :=
  capDigitsAfter (pSeq [pLitCI "observation", pWs, pLitCI "area", pWs])

/-- `Area\s*(?:of\s*)?(?:Concern|Inspection)\s*(\d+)`. -/
def areaPat4 : List Char → Option (String × List Char) :=
  capDigitsAfter (pThen (pLitCI "area") (pThen pWs
    (pOptThen (pThen (pLitCI "of") pWs)
      (pThen (pOr (pLitCI "concern") (pLitCI "inspection")) pWs))))

/-- `(?:Location|Zone|Section)\s*(\d+)`. -/
def areaPat5 : List Char → Option (String × List Char) :=
  capDigitsAfter (pThen (pOr (pLitCI "location") (pOr (pLitCI "zone") (pLitCI "section"))) pWs)

/-- `Area\s*#?\s*(\d+)`. -/
def areaPat6 : List Char → Option (String × List Char) :=
  capDigitsAfter (pThen (pLitCI "area") (pThen pWs (pOptThen (pLit "#") pWs)))

/-- The ranked area-header patterns of pdf_extractor.py lines 204-211. -/
def areaMatchers : List (List Char → Option (String × List Char)) :=
  [areaPat1, areaPat2, areaPat3, areaPat4, areaPat5, areaPat6]

/-- `re.split` with one capturing group: segments and captures alternate,
exactly as Python returns them.  The fuel is list length plus one and
every step consumes at least one character (every matcher must consume
its `(\d+)`), so it never runs out. -/
def splitCapGo (m : List Char → Option (String × List Char)) :
    Nat → List Char → List Char → List String
  | 0, acc, s => [⟨acc.reverse ++ s⟩]
  | fuel + 1, acc, s =>
    match m s with
    | some (cap, rest) => (⟨acc.reverse⟩ : String) :: cap :: splitCapGo m fuel [] rest
    | none =>
      match s with
      | [] => [⟨acc.reverse⟩]
      | c :: t => splitCapGo m fuel (c :: acc) t

/-- `re.split(pattern-with-capture, text)`. -/
def reSplitCap (m : List Char → Option (String × List Char)) (l : List Char) : List String :=
  splitCapGo m (l.length + 1) [] l

/-- Try the ranked patterns in order and return the parts of the first
one that yields more than one segment (the loop at lines 213-217). -/
def pickSplitCap : List (List Char → Option (String × List Char)) → List Char → Option (List String)
  | [], _ => none
  | m :: ms, l =>
    let parts := reSplitCap m l
    if 1 < parts.length then some parts else pickSplitCap ms l

/-- `re.split` without a capturing group (segments only). -/
def splitNoCapGo (m : List Char → Option (List Char)) :
    Nat → List Char → List Char → List String
  | 0, acc, s => [⟨acc.reverse ++ s⟩]
  | fuel + 1, acc, s =>
    match m s with
    | some rest => (⟨acc.reverse⟩ : String) :: splitNoCapGo m fuel [] rest
    | none =>
      match s with
      | [] => [⟨acc.reverse⟩]
      | c :: t => splitNoCapGo m fuel (c :: acc) t

/-- `re.split(pattern, text)` without captures. -/
def reSplitNoCap (m : List Char → Option (List Char)) (l : List Char) : List String :=
  splitNoCapGo m (l.length + 1) [] l

/-- Try patterns in order, first one yielding more than one segment. -/
def pickSplitNoCap : List (List Char → Option (List Char)) → List Char → Option (List String)
  | [], _ => none
  | m :: ms, l =>
    let parts := reSplitNoCap m l
    if 1 < parts.length then some parts else pickSplitNoCap ms l

/-- Erase the consumed text of a matcher (for no-capture splitting). -/
def toSplitM (p : Px) : List Char → Option (List Char) := fun s => (p s).map (·.2)

/-- `(?:Negative|Positive)\s*side\s*(?:Description|Observations?)`. -/
def obsPat1 : List Char → Option (List Char) :=
  toSplitM (pThen (pOr (pLitCI "negative") (pLitCI "positive")) (pThen pWs
    (pThen (pLitCI "side") (pThen pWs
      (pOr (pLitCI "description") (pThen (pLitCI "observation") (pOptThen (pLitCI "s") pEmpty)))))))

/-- `(?:Damage|Issue)\s*(?:Observed|Description)`. -/
def obsPat2 : List Char → Option (List Char) :=
  toSplitM (pThen (pOr (pLitCI "damage") (pLitCI "issue")) (pThen pWs
    (pOr (pLitCI "observed") (pLitCI "description"))))

/-- `Observation\s*(?:Details?|Description)`. -/
def obsPat3 : List Char → Option (List Char) :=
  toSplitM (pThen (pLitCI "observation") (pThen pWs
    (pOr (pThen (pLitCI "detail") (pOptThen (pLitCI "s") pEmpty)) (pLitCI "description"))))

/-- The alternate observation-marker patterns of lines 221-225. -/
def obsMatchers : List (List Char → Option (List Char)) := [obsPat1, obsPat2, obsPat3]

/-! ## Negative/positive side extraction inside one area segment -/

/-- Head of the primary negative-side pattern:
`Negative\s*side\s*(?:Description|Observations?)\s*` before the capture. -/
def negHead1 : Px :=
  pSeq [pLitCI "negative", pWs, pLitCI "side", pWs,
    pOr (pLitCI "description") (pThen (pLitCI "observation") (pOptThen (pLitCI "s") pEmpty)), pWs]

/-- Stop set of the primary negative-side pattern:
`(?=Positive\s*side|Impacted\s*Area|Affected\s*Area|Observation\s*Area|Area\s*#?\s*\d|$)`. -/
def stopNeg1 (s : List Char) : Bool :=
  laPositiveSide s || laImpactedArea s || laAffectedArea s || laObservationArea s ||
  laAreaHashDigit s || pyDollar s

/-- Head of the secondary negative-side pattern:
`(?:Damage|Issue|Problem)\s*(?:Observed|Description|Details?)\s*:?\s*`. -/
def negHead2 : Px :=
  pSeq [pOr (pLitCI "damage") (pOr (pLitCI "issue") (pLitCI "problem")), pWs,
    pOr (pLitCI "observed") (pOr (pLitCI "description")
      (pThen (pLitCI "detail") (pOptThen (pLitCI "s") pEmpty))), pWs,
    pOptThen (pLit ":") pEmpty, pWs]

/-- Stop set of the secondary negative-side pattern:
`(?=Positive\s*side|Probable\s*(?:Source|Cause)|Impacted|Affected|Area\s*#?\s*\d|$)`. -/
def stopNeg2 (s : List Char) : Bool :=
  laPositiveSide s ||
  laP (pSeq [pLitCI "probable", pWs, pOr (pLitCI "source") (pLitCI "cause")]) s ||
  laP (pLitCI "impacted") s || laP (pLitCI "affected") s || laAreaHashDigit s || pyDollar s

/-- Head of the primary positive-side pattern:
`Positive\s*side\s*(?:Description|Observations?)\s*`. -/
def posHead1 : Px :=
  pSeq [pLitCI "positive", pWs, pLitCI "side", pWs,
    pOr (pLitCI "description") (pThen (pLitCI "observation") (pOptThen (pLitCI "s") pEmpty)), pWs]

/-- Stop set of the primary positive-side pattern:
`(?=Impacted\s*Area|Affected\s*Area|Observation\s*Area|Negative\s*side|Area\s*#?\s*\d|$)`. -/
def stopPos1 (s : List Char) : Bool :=
  laImpactedArea s || laAffectedArea s || laObservationArea s || laNegativeSide s ||
  laAreaHashDigit s || pyDollar s

/-- Head of the secondary positive-side pattern:
`(?:Probable\s*(?:Source|Cause)|Source\s*(?:of\s*)?(?:Issue|Problem|Leak))\s*:?\s*`. -/
def posHead2 : Px :=
  pSeq [pOr (pSeq [pLitCI "probable", pWs, pOr (pLitCI "source") (pLitCI "cause")])
      (pThen (pLitCI "source") (pThen pWs (pOptThen (pThen (pLitCI "of") pWs)
        (pOr (pLitCI "issue") (pOr (pLitCI "problem") (pLitCI "leak")))))),
    pWs, pOptThen (pLit ":") pEmpty, pWs]

/-- Stop set of the secondary positive-side pattern:
`(?=Impacted|Affected|Negative|Damage|Area\s*#?\s*\d|$)`. -/
def stopPos2 (s : List Char) : Bool :=
  laP (pLitCI "impacted") s || laP (pLitCI "affected") s || laP (pLitCI "negative") s ||
  laP (pLitCI "damage") s || laAreaHashDigit s || pyDollar s

/-- Negative-side search: primary pattern, then the widened fallback
(lines 246-254). -/
def negSearch (content : List Char) : Option String :=
  match searchCapUntil negHead1 stopNeg1 content with
  | some g => some g
  | none => searchCapUntil negHead2 stopNeg2 content

/-- Positive-side search: primary pattern, then the widened fallback
(lines 256-264). -/
def posSearch (content : List Char) : Option String :=
  match searchCapUntil posHead1 stopPos1 content with
  | some g => some g
  | none => searchCapUntil posHead2 stopPos2 content

/-! ## Impacted-area records -/

/-- A parsed `area_number`: Python keeps `int(s)` when the captured label
is all digits and the raw string otherwise. -/
inductive AreaNum where
  | num (n : Nat)
  | label (s : String)
deriving DecidableEq, Repr

/-- One impacted-area record.  The Python code builds plain dicts whose
key sets differ between code paths; a field holding `none` models an
absent dict key. -/
structure AreaRecord where
  area_number : AreaNum
  description : Option String := none
  negative_side : Option String := none
  positive_side : Option String := none
  raw_content : Option String := none
deriving DecidableEq, Repr

/-- Build the record for one `(captured number, following segment)` pair
of the primary split path (lines 240-273). -/
def mkAreaRecord (pair : String × String) : AreaRecord :=
  let areaNumS := pyStrip pair.1
  let content := pyStrip pair.2
  { area_number :=
      if pyIsDigit areaNumS then .num (natOfDigits areaNumS.data) else .label areaNumS
    description := none
    negative_side := some (match negSearch content.data with
      | some g => pyTake 400 (pyStrip g)
      | none => "Not Available")
    positive_side := some (match posSearch content.data with
      | some g => pyTake 400 (pyStrip g)
      | none => "Not Available")
    raw_content := some (pyTake 600 content) }

/-- Successive `(parts[i], parts[i+1])` pairs for odd `i`, as walked by
the `while i < len(parts) - 1` loop. -/
def chunkPairs : List String → List (String × String)
  | a :: b :: t => (a, b) :: chunkPairs t
  | _ => []

/-- Pairs of (captured area number, segment) from a split-parts list. -/
def pairsOf : List String → List (String × String)
  | [] => []
  | _ :: t => chunkPairs t

/-- Records of the secondary observation-marker path (lines 229-235):
numbered by split order, description only, empty snippets skipped. -/
def buildObsAreas : Nat → List String → List AreaRecord
  | _, [] => []
  | i, p :: t =>
    let snippet := pyStrip (pyTake 500 p)
    (if snippet.data.isEmpty then [] else
      [{ area_number := .num i, description := some snippet : AreaRecord }]) ++
    buildObsAreas (i + 1) t

/-- `_extract_impacted_areas` (pdf_extractor.py lines 199-275). -/
def extract_impacted_areas (text : String) : List AreaRecord :=
  match pickSplitCap areaMatchers text.data with
  | some parts => (pairsOf parts).map mkAreaRecord
  | none =>
    match pickSplitNoCap obsMatchers text.data with
    | some parts => buildObsAreas 1 (parts.drop 1)
    | none => []

/-! ## Checklist and summary-table extraction -/

/-- Stop set of checklist pattern 1:
`(?=SUMMARY\s*TABLE|Summary\s*(?:of\s*)?Findings|Appendix|$)`. -/
def stopCk1 (s : List Char) : Bool :=
  laP (pSeq [pLitCI "summary", pWs, pLitCI "table"]) s ||
  laP (pThen (pLitCI "summary") (pThen pWs
    (pOptThen (pThen (pLitCI "of") pWs) (pLitCI "findings")))) s ||
  laP (pLitCI "appendix") s || pyDollar s

/-- Stop set of checklist patterns 2-4: `(?=SUMMARY|Summary|Appendix|$)`
(the two summary branches coincide case-insensitively). -/
def stopCk2 (s : List Char) : Bool :=
  laP (pLitCI "summary") s || laP (pLitCI "appendix") s || pyDollar s

/-- `_extract_checklists` (pdf_extractor.py lines 278-291); the winning
capture is stripped and capped at 3000 characters. -/
def extract_checklists (text : String) : String :=
  match searchSpanUntil (pThen (pLitCI "checklist") (pOptThen (pLitCI "s") pEmpty))
      stopCk1 text.data with
  | some g => pyTake 3000 (pyStrip g)
  | none =>
    match searchSpanUntil (pSeq [pLitCI "check", pWs, pLitCI "list"]) stopCk2 text.data with
    | some g => pyTake 3000 (pyStrip g)
    | none =>
      match searchSpanUntil (pThen (pLitCI "inspection") (pThen pWs
          (pOr (pLitCI "checklist") (pLitCI "findings")))) stopCk2 text.data with
      | some g => pyTake 3000 (pyStrip g)
      | none =>
        match searchSpanUntil (pThen (pOr (pLitCI "site") (pLitCI "building")) (pThen pWs
            (pOr (pLitCI "checklist") (pSeq [pLitCI "check", pWs, pLitCI "list"]))))
            stopCk2 text.data with
        | some g => pyTake 3000 (pyStrip g)
        | none => "Not Available"

/-- Stop set of summary pattern 1: `(?=Appendix|Photo\s*1|$)`. -/
def stopSm1 (s : List Char) : Bool :=
  laP (pLitCI "appendix") s || laP (pSeq [pLitCI "photo", pWs, pLit "1"]) s || pyDollar s

/-- Stop set of summary patterns 2-4: `(?=Appendix|Photo|Annexure|$)`. -/
def stopSm2 (s : List Char) : Bool :=
  laP (pLitCI "appendix") s || laP (pLitCI "photo") s || laP (pLitCI "annexure") s || pyDollar s

/-- `_extract_summary_table` (pdf_extractor.py lines 294-306). -/
def extract_summary_table (text : String) : String :=
  match searchSpanUntil (pSeq [pLitCI "summary", pWs, pLitCI "table"]) stopSm1 text.data with
  | some g => pyStrip g
  | none =>
    match searchSpanUntil (pThen (pLitCI "summary") (pThen pWs
        (pOptThen (pThen (pLitCI "of") pWs)
          (pOr (pLitCI "findings") (pOr (pLitCI "observations") (pLitCI "issues"))))))
        stopSm2 text.data with
    | some g => pyStrip g
    | none =>
      match searchSpanUntil (pSeq [pOr (pLitCI "observation") (pLitCI "inspection"), pWs,
          pLitCI "summary"]) stopSm2 text.data with
      | some g => pyStrip g
      | none =>
        match searchSpanUntil (pSeq [pOr (pLitCI "final") (pLitCI "overall"), pWs,
            pLitCI "summary"]) stopSm2 text.data with
        | some g => pyStrip g
        | none => "Not Available"

/-! ## The Inspection Structurer top level -/

/-- The sections dict returned by `extract_inspection_report`; all five
keys are always present. -/
structure InspectionSections where
  raw_text : String
  site_details : String
  impacted_areas : List AreaRecord
  checklists : String
  summary_table : String
deriving DecidableEq, Repr

/-- The single synthesized area record of the deep fallback
(pdf_extractor.py lines 151-157). -/
def synthFallbackArea (cleaned : String) : AreaRecord :=
  { area_number := .num 1
    description := some (pyTake 2000 cleaned)
    negative_side := some "Not Available"
    positive_side := some "Not Available"
    raw_content := some (pyTake 2000 cleaned) }

/-- `extract_inspection_report` from the extracted text onward
(pdf_extractor.py lines 132-159): PDF byte decoding is delegated to the
external text-extraction provider and is outside the modelled core. -/
def extract_inspection_report_text (raw : String) : InspectionSections :=
  if (extract_impacted_areas (clean_extracted_text raw)).isEmpty &&
      extract_site_details (clean_extracted_text raw) =
        pyTake 800 (clean_extracted_text raw) then
    { raw_text := clean_extracted_text raw
      site_details := extract_site_details (clean_extracted_text raw)
      impacted_areas := [synthFallbackArea (clean_extracted_text raw)]
      checklists := extract_checklists (clean_extracted_text raw)
      summary_table := extract_summary_table (clean_extracted_text raw) }
  else
    { raw_text := clean_extracted_text raw
      site_details := extract_site_details (clean_extracted_text raw)
      impacted_areas := extract_impacted_areas (clean_extracted_text raw)
      checklists := extract_checklists (clean_extracted_text raw)
      summary_table := extract_summary_table (clean_extracted_text raw) }

/-! ## Thermal Structurer: `_parse_thermal_readings`
(pdf_extractor.py lines 309-372) -/

/-- One per-image thermal reading; `none` models an absent dict key. -/
structure ThermalReading where
  hotspot : Option String := none
  coldspot : Option String := none
  emissivity : Option String := none
  reflected_temp : Option String := none
  image_file : Option String := none
  device : Option String := none
  date : Option String := none
  image_number : Option Nat := none
deriving DecidableEq, Repr

/-- The capture `([\d.]+\s*°?\s*C)` (under `re.IGNORECASE`, so the final
`C` matches either case). -/
def tempValueP : Px :=
  pSeq [pRun1 isDigitDot, pWs, pOptThen (pLit "°") pEmpty, pWs,
    pChar (fun c => chEqCI 'C' c)]

/-- Head `(?:Hot\s*spot|Max(?:imum)?\s*Temp(?:erature)?)\s*:?\s*`. -/
def hotHead : Px :=
  pSeq [pOr (pSeq [pLitCI "hot", pWs, pLitCI "spot"])
      (pThen (pLitCI "max") (pOptThen (pLitCI "imum")
        (pThen pWs (pThen (pLitCI "temp") (pOptThen (pLitCI "erature") pEmpty))))),
    pWs, pOptThen (pLit ":") pEmpty, pWs]

/-- Head `(?:Cold\s*spot|Min(?:imum)?\s*Temp(?:erature)?)\s*:?\s*`. -/
def coldHead : Px :=
  pSeq [pOr (pSeq [pLitCI "cold", pWs, pLitCI "spot"])
      (pThen (pLitCI "min") (pOptThen (pLitCI "imum")
        (pThen pWs (pThen (pLitCI "temp") (pOptThen (pLitCI "erature") pEmpty))))),
    pWs, pOptThen (pLit ":") pEmpty, pWs]

/-- Search for a head followed by the temperature-value capture. -/
def searchTempAfter (head : Px) (page : List Char) : Option String :=
  scanSearch (fun s =>
    match head s with
    | none => none
    | some x => (tempValueP x.2).map (fun y => (⟨y.1⟩ : String))) page

/-- Post-processing of a hotspot/coldspot capture (lines 328-330 and
335-337): drop the spaces; if no degree sign is present, rewrite each
literal `C` (uppercase only, as `str.replace` is case sensitive) to
` °C`. -/
def expandC : List Char → List Char
  | [] => []
  | c :: t => if c = 'C' then ' ' :: '°' :: 'C' :: expandC t else c :: expandC t

/-- `g.replace(' ', '')` then the conditional `replace('C', ' °C')`. -/
def fixTemp (g : String) : String :=
  let g1 := g.data.filter (fun c => c ≠ ' ')
  if g1.contains '°' then ⟨g1⟩ else ⟨expandC g1⟩

/-- `Emissivity\s*:?\s*([\d.]+)`. -/
def emisSearch (page : List Char) : Option String :=
  scanSearch (fun s =>
    match pSeq [pLitCI "emissivity", pWs, pOptThen (pLit ":") pEmpty, pWs] s with
    | none => none
    | some x => (pRun1 isDigitDot x.2).map (fun y => (⟨y.1⟩ : String))) page

/-- `Reflected\s*(?:Apparent)?\s*Temp(?:erature)?\s*:?\s*([\d.]+\s*°?\s*C)`
(capture kept verbatim, no post-processing). -/
def reflSearch (page : List Char) : Option String :=
  scanSearch (fun s =>
    match (pThen (pLitCI "reflected") (pThen pWs (pOptThen (pLitCI "apparent")
        (pThen pWs (pThen (pLitCI "temp") (pOptThen (pLitCI "erature")
          (pThen pWs (pOptThen (pLit ":") pWs)))))))) s with
    | none => none
    | some x => (tempValueP x.2).map (fun y => (⟨y.1⟩ : String))) page

/-- Extension alternation `\.(?:jpe?g|png|bmp|tiff?)` (case insensitive
because the search carries `re.IGNORECASE`). -/
def extAlt : Px :=
  pOr (pThen (pLitCI "jp") (pOptThen (pLitCI "e") (pLitCI "g")))
    (pOr (pLitCI "png") (pOr (pLitCI "bmp")
      (pThen (pLitCI "tif") (pOptThen (pLitCI "f") pEmpty))))

/-- Backtracking for `(\S+\.(?:...))`: the greedy `\S+` settles on the
rightmost dot inside the maximal non-whitespace run at which the
extension alternation matches, with at least one character before the
dot.  `j` counts down candidate dot positions. -/
def imgScan (T : List Char) : Nat → Option (List Char)
  | 0 => none
  | j + 1 =>
    match T.drop (j + 1) with
    | '.' :: u =>
      match extAlt u with
      | some e => some (T.take (j + 1) ++ '.' :: e.1)
      | none => imgScan T j
    | _ => imgScan T j

/-- `(?:Thermal\s*)?[Ii]mage\s*:?\s*(\S+\.(?:jpe?g|png|bmp|tiff?))`. -/
def imageSearch (page : List Char) : Option String :=
  scanSearch (fun s =>
    match (pOptThen (pThen (pLitCI "thermal") pWs)
        (pSeq [pLitCI "image", pWs, pOptThen (pLit ":") pEmpty, pWs])) s with
    | none => none
    | some x =>
      let T := x.2.takeWhile (fun c => !isPySpace c)
      (imgScan T T.length).map (fun cap => (⟨cap⟩ : String))) page

/-- Terminator `(?:Serial|\n|$)` of the device pattern (the pattern has
no `re.DOTALL`, and a newline is itself a listed terminator). -/
def stopDev (s : List Char) : Bool :=
  laP (pLitCI "serial") s || s.head? = some '\n' || pyDollar s

/-- `(?:Device|Camera|Equipment)\s*:?\s*(.*?)(?:Serial|\n|$)`. -/
def devSearch (page : List Char) : Option String :=
  searchCapUntil
    (pSeq [pOr (pLitCI "device") (pOr (pLitCI "camera") (pLitCI "equipment")),
      pWs, pOptThen (pLit ":") pEmpty, pWs])
    stopDev page

/-- The separator class `[/\-.]`. -/
def isDateSep (c : Char) : Bool := c = '/' || c = '-' || c = '.'

/-- `(\d{2}[/\-.]\d{2}[/\-.]\d{2,4}|\d{4}[/\-.]\d{2}[/\-.]\d{2})`
(no flags on this search). -/
def dateSearch (page : List Char) : Option String :=
  scanSearch (fun s =>
    ((pOr (pSeq [pDigitsExact 2, pChar isDateSep, pDigitsExact 2, pChar isDateSep, pDigits24])
       (pSeq [pDigitsExact 4, pChar isDateSep, pDigitsExact 2, pChar isDateSep, pDigitsExact 2]))
      s).map (fun x => (⟨x.1⟩ : String))) page

/-- `re.search(r'\n(\d{1,3})\s*$', page_text.strip())` followed by
`int(...)`: after some newline of the stripped page, one to three digits
followed by only whitespace up to the (Python) end anchor. -/
def imgNumSearch (page : List Char) : Option Nat :=
  scanSearch (fun s =>
    match s with
    | '\n' :: t =>
      let ds := t.takeWhile isDigitCh
      if 1 ≤ ds.length && ds.length ≤ 3 && (t.drop ds.length).all isPySpace then
        some (natOfDigits ds)
      else none
    | _ => none) (pyStripL page)

/-- Field extraction for one page segment (lines 323-367). -/
def parseThermalPage (page : List Char) : ThermalReading :=
  { hotspot := (searchTempAfter hotHead page).map fixTemp
    coldspot := (searchTempAfter coldHead page).map fixTemp
    emissivity := emisSearch page
    reflected_temp := reflSearch page
    image_file := imageSearch page
    device := (devSearch page).map pyStrip
    date := dateSearch page
    image_number := imgNumSearch page }

/-- Python dict truthiness of a reading: at least one key was set. -/
def readingNonEmpty (r : ThermalReading) : Bool :=
  r.hotspot.isSome || r.coldspot.isSome || r.emissivity.isSome ||
  r.reflected_temp.isSome || r.image_file.isSome || r.device.isSome ||
  r.date.isSome || r.image_number.isSome

/-- The page-marker pattern `\[Page\s*\d+\]` (case sensitive, no flags). -/
def pageMarkerM : List Char → Option (List Char) :=
  toSplitM (pSeq [pLit "[", pLit "Page", pWs, pDigits, pLit "]"])

/-- `_parse_thermal_readings` (lines 309-372): split on page markers,
skip blank segments, extract fields, and materialize only non-empty
readings. -/
def parse_thermal_readings (text : String) : List ThermalReading :=
  (reSplitNoCap pageMarkerM text.data).filterMap (fun pg =>
    if (pyStripL pg.data).isEmpty then none
    else if readingNonEmpty (parseThermalPage pg.data) then some (parseThermalPage pg.data)
    else none)

/-- The dict returned by `extract_thermal_report`; all three keys are
always present. -/
structure ThermalSections where
  raw_text : String
  readings : List ThermalReading
  num_images : Nat
deriving DecidableEq, Repr

/-- `extract_thermal_report` from the extracted text onward
(pdf_extractor.py lines 162-176). -/
def extract_thermal_report_text (raw : String) : ThermalSections :=
  let cleaned := clean_extracted_text raw
  let readings := parse_thermal_readings cleaned
  { raw_text := cleaned, readings := readings, num_images := readings.length }

/-! ## Merge & Reconciliation Engine (data_processor.py) -/

/-- `_build_property_info` output: the raw span plus eight named fields,
each matched text or the sentinel. -/
structure PropertyInfo where
  raw_details : String := ""
  property_type : String := ""
  address : String := ""
  floors : String := ""
  property_age : String := ""
  inspection_date : String := ""
  inspected_by : String := ""
  previous_repairs : String := ""
  previous_audit : String := ""
deriving DecidableEq, Repr

/-- Lazy `.*?` without `re.DOTALL` followed by a tail whose success is
not guaranteed: extend minimally, never across a newline; the enclosing
position fails when no extension works. -/
def lazyTailGo (tail : List Char → Option α) : List Char → Option α
  | [] => tail []
  | c :: t =>
    match tail (c :: t) with
    | some a => some a
    | none => if c = '\n' then none else lazyTailGo tail t

/-- Search `head(.*?)(?:\n|$)` returning the stripped lazy group, the
shape of the property_type/address/inspected_by patterns. -/
def searchLineValue (head : Px) (l : List Char) : Option String :=
  searchCapUntil head (fun s => s.head? = some '\n' || pyDollar s) l

/-- Search `head\s*:?\s*(cap)` where `cap` is a concrete capture
matcher. -/
def searchHeadCap (head : Px) (cap : Px) (l : List Char) : Option String :=
  scanSearch (fun s =>
    match head s with
    | none => none
    | some x => (cap x.2).map (fun y => (⟨y.1⟩ : String))) l

/-- The tail `:?\s*` ahead of a capture group. -/
def colonWs : Px := pSeq [pOptThen (pLit ":") pEmpty, pWs]

/-- Apply `:?\s*` and then a capture matcher, returning only the
capture's consumed text (the group excludes the colon and whitespace). -/
def capAfterColon (cap : Px) : Px := fun s =>
  match colonWs s with
  | none => none
  | some x => (cap x.2).map (fun y => (y.1, y.2))

/-- Search `head.*?:?\s*(cap)` (non-DOTALL lazy run before the optional
colon), the shape of the property_age/inspection_date/previous_*
patterns. -/
def searchLazyCap (head : Px) (cap : Px) (l : List Char) : Option String :=
  scanSearch (fun s =>
    match head s with
    | none => none
    | some x =>
      lazyTailGo (fun r =>
        (capAfterColon cap r).map (fun y => (⟨y.1⟩ : String))) x.2) l

/-- Wrap a field result: `match.group(1).strip() if match else "Not
Available"`. -/
def fieldOr (o : Option String) : String :=
  match o with
  | some g => pyStrip g
  | none => "Not Available"

/-- `_build_property_info` (data_processor.py lines 32-58); all eight
field patterns run with `re.IGNORECASE` and without `re.DOTALL`. -/
def build_property_info (site_text : String) : PropertyInfo :=
  let l := site_text.data
  { raw_details := site_text
    property_type := fieldOr (searchLineValue
      (pSeq [pLitCI "property", pWs, pLitCI "type", pWs, pOptThen (pLit ":") pEmpty, pWs]) l)
    address := fieldOr (searchLineValue
      (pSeq [pLitCI "address", pWs, pOptThen (pLit ":") pEmpty, pWs]) l)
    floors := fieldOr (searchHeadCap
      (pSeq [pLitCI "floors", pWs, pOptThen (pLit ":") pEmpty, pWs]) pDigits l)
    property_age := fieldOr (searchLazyCap
      (pSeq [pLitCI "property", pWs, pLitCI "age"]) pDigits l)
    inspection_date := fieldOr (searchLazyCap
      (pSeq [pLitCI "inspection", pWs, pLitCI "date"])
      (pRun1 (fun c => isDigitCh c || c = '.' || c = '/')) l)
    inspected_by := fieldOr (searchLineValue
      (pSeq [pLitCI "inspected", pWs, pLitCI "by", pWs, pOptThen (pLit ":") pEmpty, pWs]) l)
    previous_repairs := fieldOr (searchLazyCap
      (pSeq [pLitCI "previous", pWs, pLitCI "repair"])
      (pOr (pLitCI "yes") (pLitCI "no")) l)
    previous_audit := fieldOr (searchLazyCap
      (pSeq [pLitCI "previous", pWs, pLitCI "structural", pWs, pLitCI "audit"])
      (pOr (pLitCI "yes") (pLitCI "no")) l) }

/-- One merged area observation (the dict built at data_processor.py
lines 72-98); `temperature_range = none` models the code path that never
sets that key. -/
structure Observation where
  area_number : AreaNum
  negative_side : String := ""
  positive_side : String := ""
  raw_content : String := ""
  thermal_readings : List ThermalReading := []
  temperature_range : Option String := none
deriving DecidableEq, Repr

/-- The positional pairing window: `readings[(N-1)*3 : min((N-1)*3 + 3,
len(readings))]` (lines 84-86). -/
def relatedThermal (readings : List ThermalReading) (n : Nat) : List ThermalReading :=
  (readings.take (min ((n - 1) * 3 + 3) readings.length)).drop ((n - 1) * 3)

/-- `[r.get("hotspot", "") for r in related_thermal if r.get("hotspot")]`:
hotspot values present and truthy (nonempty). -/
def hotspotTemps (l : List ThermalReading) : List String :=
  l.filterMap (fun r =>
    match r.hotspot with
    | some h => if h = "" then none else some h
    | none => none)

/-- Python string `<` (lexicographic by code point). -/
def lexLtL : List Char → List Char → Bool
  | [], [] => false
  | [], _ :: _ => true
  | _ :: _, [] => false
  | x :: xs, y :: ys => if x = y then lexLtL xs ys else decide (x < y)

/-- Python `min` over a nonempty string list. -/
def pyMinStr : List String → String
  | [] => ""
  | h :: t => t.foldl (fun acc x => if lexLtL x.data acc.data then x else acc) h

/-- Python `max` over a nonempty string list. -/
def pyMaxStr : List String → String
  | [] => ""
  | h :: t => t.foldl (fun acc x => if lexLtL acc.data x.data then x else acc) h

/-- Render an area number the way an f-string renders the stored value. -/
def showAreaNum : AreaNum → String
  | .num n => toString n
  | .label s => s

/-- The per-area body of `_merge_observations` (lines 71-100). -/
def mergeOneObs (readings : List ThermalReading) (area : AreaRecord) : Observation :=
  let neg := area.negative_side.getD (area.description.getD "Not Available")
  let pos := area.positive_side.getD "Not Available"
  let raw := area.raw_content.getD ""
  match area.area_number with
  | .num n =>
    if 0 < n then
      let related := relatedThermal readings n
      if related.isEmpty then
        { area_number := .num n, negative_side := neg, positive_side := pos,
          raw_content := raw, thermal_readings := [],
          temperature_range := some "Not Available" }
      else
        let temps := hotspotTemps related
        { area_number := .num n, negative_side := neg, positive_side := pos,
          raw_content := raw, thermal_readings := related,
          temperature_range :=
            if temps.isEmpty then none
            else some (pyMinStr temps ++ " to " ++ pyMaxStr temps) }
    else
      { area_number := .num n, negative_side := neg, positive_side := pos,
        raw_content := raw, thermal_readings := [],
        temperature_range := some "Not Available" }
  | .label s =>
    { area_number := .label s, negative_side := neg, positive_side := pos,
      raw_content := raw, thermal_readings := [],
      temperature_range := some "Not Available" }

/-- `_merge_observations` (data_processor.py lines 61-102). -/
def merge_observations (insp : InspectionSections) (th : ThermalSections) : List Observation :=
  insp.impacted_areas.map (mergeOneObs th.readings)

/-! ### Thermal summary statistics (`_summarize_thermal`, lines 105-147)

Python floats are modelled as exact rationals; `float(...)` is modelled
for finite decimal/exponent literals (the shapes `[\d.]+` captures can
produce, plus signs and whitespace) and `"%.1f"` as exact round-half-even
at one decimal place. -/

/-- Parse an optional sign. -/
def parseSign : List Char → ℚ × List Char
  | '+' :: t => (1, t)
  | '-' :: t => (-1, t)
  | l => (1, l)

/-- Numeric value of a digit run as a rational. -/
def digitsQ (l : List Char) : ℚ := (natOfDigits l : ℚ)

/-- Model of Python `float(s)` restricted to finite decimal literals with
optional sign and exponent (returns `none` exactly when `float` raises
`ValueError` on such shapes; `inf`/`nan` literals are out of the modelled
domain). -/
def parsePyFloat (s : String) : Option ℚ :=
  let l := pyStripL s.data
  let sg := parseSign l
  let ip := sg.2.takeWhile isDigitCh
  let r1 := sg.2.drop ip.length
  let fr : Option (List Char × List Char) :=
    match r1 with
    | '.' :: r2 =>
      let f := r2.takeWhile isDigitCh
      if ip.isEmpty && f.isEmpty then none else some (f, r2.drop f.length)
    | _ => if ip.isEmpty then none else some ([], r1)
  match fr with
  | none => none
  | some (f, r2) =>
    let mant : ℚ := sg.1 * (digitsQ ip + digitsQ f / (10 : ℚ) ^ f.length)
    match r2 with
    | [] => some mant
    | e :: r3 =>
      if e = 'e' || e = 'E' then
        let es := parseSign r3
        let ed := es.2.takeWhile isDigitCh
        if ed.isEmpty || !(es.2.drop ed.length).isEmpty then none
        else some (mant * (10 : ℚ) ^ ((if es.1 = 1 then (natOfDigits ed : ℤ) else -(natOfDigits ed : ℤ))))
      else none

/-- Remove every occurrence of the two-character substring `°C`
(`str.replace("°C", "")`). -/
def removeDegC : List Char → List Char
  | [] => []
  | '°' :: 'C' :: t => removeDegC t
  | c :: t => c :: removeDegC t

/-- `float(r["hotspot"].replace("°C", "").strip())` guarded by key
presence, `none` when absent or unparseable. -/
def hotFloat (r : ThermalReading) : Option ℚ :=
  r.hotspot.bind (fun s => parsePyFloat ⟨pyStripL (removeDegC s.data)⟩)

/-- The coldspot analogue. -/
def coldFloat (r : ThermalReading) : Option ℚ :=
  r.coldspot.bind (fun s => parsePyFloat ⟨pyStripL (removeDegC s.data)⟩)

/-- Round half to even (banker's rounding) to an integer. -/
def roundHalfEven (x : ℚ) : ℤ :=
  let f := ⌊x⌋
  let d := x - f
  if d < 1 / 2 then f
  else if 1 / 2 < d then f + 1
  else if f % 2 = 0 then f else f + 1

/-- `"%.1f"` formatting of a rational (exact model of the decimal
rendering used for the thermal aggregates). -/
def fmt1 (q : ℚ) : String :=
  let n := roundHalfEven (q * 10)
  (if n < 0 then "-" else "") ++ toString (n.natAbs / 10) ++ "." ++ toString (n.natAbs % 10)

/-- Python `max` over a nonempty rational list. -/
def qMax : List ℚ → ℚ
  | [] => 0
  | h :: t => t.foldl (fun a b => if a < b then b else a) h

/-- Python `min` over a nonempty rational list. -/
def qMin : List ℚ → ℚ
  | [] => 0
  | h :: t => t.foldl (fun a b => if b < a then b else a) h

/-- Python `sum` over a rational list. -/
def qSum (l : List ℚ) : ℚ := l.foldl (· + ·) 0

/-- The thermal summary dict.  The empty-readings branch of the source
(lines 110-116) returns a dict without the `avg_hotspot`,
`temp_differential` and `emissivity` keys; `none` models those absent
keys. -/
structure ThermalSummary where
  total_images : Nat := 0
  overall_hotspot : String := ""
  overall_coldspot : String := ""
  avg_hotspot : Option String := none
  temp_differential : Option String := none
  device_used : String := ""
  inspection_date : String := ""
  emissivity : Option String := none
deriving DecidableEq, Repr

/-- `_summarize_thermal` (data_processor.py lines 105-147). -/
def summarize_thermal (th : ThermalSections) : ThermalSummary :=
  if th.readings.isEmpty then
    { total_images := 0
      overall_hotspot := "Not Available"
      overall_coldspot := "Not Available"
      avg_hotspot := none
      temp_differential := none
      device_used := "Not Available"
      inspection_date := "Not Available"
      emissivity := none }
  else
    let hotspots := th.readings.filterMap hotFloat
    let coldspots := th.readings.filterMap coldFloat
    { total_images := th.readings.length
      overall_hotspot :=
        if hotspots.isEmpty then "Not Available" else fmt1 (qMax hotspots) ++ " °C"
      overall_coldspot :=
        if coldspots.isEmpty then "Not Available" else fmt1 (qMin coldspots) ++ " °C"
      avg_hotspot := some (if hotspots.isEmpty then "Not Available"
        else fmt1 (qSum hotspots / (hotspots.length : ℚ)) ++ " °C")
      temp_differential := some (if hotspots.isEmpty || coldspots.isEmpty then "Not Available"
        else fmt1 (qMax hotspots - qMin coldspots) ++ " °C")
      device_used := ((th.readings.head?.bind (·.device)).getD "Not Available")
      inspection_date := ((th.readings.head?.bind (·.date)).getD "Not Available")
      emissivity := some ((th.readings.head?.bind (·.emissivity)).getD "Not Available") }

/-! ### Conflict detection (`_detect_conflicts`, lines 150-190) -/

/-- One detected conflict. -/
structure Conflict where
  type : String
  detail : String
deriving DecidableEq, Repr

/-- `re.search(r'(\d{2}\.\d{2}\.\d{4})', site_details)`. -/
def findInspDate (l : List Char) : Option String :=
  scanSearch (fun s =>
    ((pSeq [pDigitsExact 2, pLit ".", pDigitsExact 2, pLit ".", pDigitsExact 4]) s).map
      (fun x => (⟨x.1⟩ : String))) l

/-- The date of the first thermal reading, if any
(`thermal_readings[0].get("date") if thermal_readings else None`). -/
def firstThermalDate (th : ThermalSections) : Option String :=
  th.readings.head?.bind (·.date)

/-- The date-consistency half of `_detect_conflicts` (lines 157-178). -/
def dateConflicts (insp : InspectionSections) (th : ThermalSections) : List Conflict :=
  match findInspDate insp.site_details.data, firstThermalDate th with
  | some d, some t =>
    if 2 ≤ (splitOnCh '.' d.data).length && 2 ≤ (splitOnCh '/' t.data).length then
      if (splitOnCh '.' d.data).headD [] ≠ (splitOnCh '/' t.data).headD [] ||
          (splitOnCh '.' d.data).getD 1 [] ≠ (splitOnCh '/' t.data).getD 1 [] then
        [{ type := "date_mismatch"
           detail := "Inspection date (" ++ d ++ ") differs from thermal scan date (" ++
             t ++ "). Reports may have been prepared on different days." }]
      else []
    else []
  | _, _ => []

/-- The areas-versus-thermal-count half of `_detect_conflicts`
(lines 180-188). -/
def missingThermalConflict (insp : InspectionSections) (th : ThermalSections) : List Conflict :=
  if 0 < insp.impacted_areas.length && th.num_images = 0 then
    [{ type := "missing_thermal"
       detail := "Inspection report has " ++ toString insp.impacted_areas.length ++
         " impacted areas, but no thermal readings found." }]
  else []

/-- `_detect_conflicts` (data_processor.py lines 150-190): the date check
runs first, then the missing-thermal check appends. -/
def detect_conflicts (insp : InspectionSections) (th : ThermalSections) : List Conflict :=
  dateConflicts insp th ++ missingThermalConflict insp th

/-! ### Missing-information detection (`_identify_missing`, lines 193-229) -/

/-- `_identify_missing` (data_processor.py lines 193-229). -/
def identify_missing (insp : InspectionSections) (th : ThermalSections) : List String :=
  (if strContains "N/A" insp.site_details || insp.site_details = "" then
    ["Some property details are marked as N/A or not available"] else []) ++
  (if insp.impacted_areas.isEmpty then
    ["No impacted areas could be extracted from the inspection report"] else []) ++
  (insp.impacted_areas.map (fun area =>
    let neg := area.negative_side.getD ""
    let pos := area.positive_side.getD ""
    let num := showAreaNum area.area_number
    (if neg = "Not Available" then
      ["Impacted Area " ++ num ++ ": Negative side description not available"] else []) ++
    (if pos = "Not Available" then
      ["Impacted Area " ++ num ++ ": Positive side description not available"] else []))).flatten ++
  (if th.readings.isEmpty then
    ["No thermal readings could be extracted from the thermal report"] else []) ++
  (if insp.checklists = "Not Available" || insp.checklists = "" then
    ["Inspection checklists section not found"] else [])

/-! ### The merged aggregate (`merge_inspection_and_thermal`, lines 9-29) -/

/-- The merged report structure. -/
structure MergedReport where
  property_info : PropertyInfo := {}
  observations : List Observation := []
  thermal_summary : ThermalSummary := {}
  checklist_findings : String := ""
  summary_table : String := ""
  conflicts : List Conflict := []
  missing_info : List String := []
deriving DecidableEq, Repr

/-- `merge_inspection_and_thermal` (data_processor.py lines 9-29). -/
def merge_inspection_and_thermal (insp : InspectionSections) (th : ThermalSections) : MergedReport :=
  { property_info := build_property_info insp.site_details
    observations := merge_observations insp th
    thermal_summary := summarize_thermal th
    checklist_findings := insp.checklists
    summary_table := insp.summary_table
    conflicts := detect_conflicts insp th
    missing_info := identify_missing insp th }

/-! ## Serialization Formatter (`format_merged_data_for_llm`,
data_processor.py lines 232-296)

The iteration over `prop.items()` and the thermal-summary dict follows
the dict insertion order of the source; `key.replace('_', ' ').title()`
is applied to the fixed key literals. -/

/-- The property-information lines: every item except `raw_details`. -/
def propLines (p : PropertyInfo) : List String :=
  ["  Property Type: " ++ p.property_type,
   "  Address: " ++ p.address,
   "  Floors: " ++ p.floors,
   "  Property Age: " ++ p.property_age,
   "  Inspection Date: " ++ p.inspection_date,
   "  Inspected By: " ++ p.inspected_by,
   "  Previous Repairs: " ++ p.previous_repairs,
   "  Previous Audit: " ++ p.previous_audit]

/-- One inline thermal-reading line of an observation block. -/
def trLine (tr : ThermalReading) : String :=
  "  Thermal: Hotspot=" ++ tr.hotspot.getD "N/A" ++ ", Coldspot=" ++ tr.coldspot.getD "N/A"

/-- The lines of one observation block (lines 249-257). -/
def obsLines (obs : Observation) : List String :=
  ["\n--- Area " ++ showAreaNum obs.area_number ++ " ---",
   "  Negative side (damage): " ++ obs.negative_side,
   "  Positive side (source): " ++ obs.positive_side] ++
  (match obs.temperature_range with
   | some v => if v ≠ "" && v ≠ "Not Available" then ["  Temperature range: " ++ v] else []
   | none => []) ++
  (if obs.thermal_readings.isEmpty then [] else obs.thermal_readings.map trLine)

/-- The thermal-summary lines, in dict insertion order, skipping the
keys absent in the empty-readings branch. -/
def tsLines (ts : ThermalSummary) : List String :=
  ["  Total Images: " ++ toString ts.total_images,
   "  Overall Hotspot: " ++ ts.overall_hotspot,
   "  Overall Coldspot: " ++ ts.overall_coldspot] ++
  (match ts.avg_hotspot with | some v => ["  Avg Hotspot: " ++ v] | none => []) ++
  (match ts.temp_differential with | some v => ["  Temp Differential: " ++ v] | none => []) ++
  ["  Device Used: " ++ ts.device_used,
   "  Inspection Date: " ++ ts.inspection_date] ++
  (match ts.emissivity with | some v => ["  Emissivity: " ++ v] | none => [])

/-- One conflict line. -/
def conflictLine (c : Conflict) : String := "  ⚠ " ++ c.type ++ ": " ++ c.detail

/-- One missing-information line. -/
def missingLine (m : String) : String := "  • " ++ m

/-- The full section list passed to `"\n".join` (lines 237-294). -/
def formatSections (m : MergedReport) : List String :=
  ["=== PROPERTY INFORMATION ==="] ++ propLines m.property_info ++ [""] ++
  ["=== AREA-WISE OBSERVATIONS ==="] ++ (m.observations.map obsLines).flatten ++ [""] ++
  ["=== THERMAL SCAN SUMMARY ==="] ++ tsLines m.thermal_summary ++ [""] ++
  ["=== CHECKLIST FINDINGS ===", m.checklist_findings, ""] ++
  ["=== SUMMARY TABLE FROM INSPECTION ===", m.summary_table, ""] ++
  ["=== IDENTIFIED CONFLICTS ==="] ++
  (if m.conflicts.isEmpty then ["  No conflicts detected between the two reports."]
   else m.conflicts.map conflictLine) ++ [""] ++
  ["=== MISSING INFORMATION ==="] ++
  (if m.missing_info.isEmpty then ["  All expected information is present."]
   else m.missing_info.map missingLine)

/-- `format_merged_data_for_llm` (data_processor.py lines 232-296). -/
def format_merged_data_for_llm (m : MergedReport) : String :=
  pyJoinNL (formatSections m)

/-! ## Fixpoint predicates for the Text Normalizer analysis

Each predicate characterizes the strings a normalization stage leaves
unchanged; they drive the idempotence analysis of
`clean_extracted_text`. -/

/-- The head, if any, is not Python whitespace. -/
def headNotWs (l : List Char) : Bool :=
  match l.head? with
  | some c => !isPySpace c
  | none => true

/-- The last element, if any, is not Python whitespace. -/
def lastNotWs (l : List Char) : Bool := headNotWs l.reverse

/-- No leading and no trailing whitespace: exactly the strings fixed by
`str.strip`. -/
def edgeClean (l : List Char) : Bool := headNotWs l && lastNotWs l

/-- State-tracking scan: no tab anywhere and no `[ \t]` character
directly after another (with `b` recording whether the previous
character was a blank); exactly the strings fixed by
`collapseSpacesGo b`. -/
def noBlankIssue : Bool → List Char → Bool
  | _, [] => true
  | prevBlank, c :: t =>
    if isBlankCh c then (!prevBlank && c = ' ') && noBlankIssue true t
    else noBlankIssue false t

/-- State-tracking scan: never a third consecutive newline, starting
from a run already `n` long; exactly the strings fixed by
`collapseNLGo n`. -/
def noTripleNLGo : Nat → List Char → Bool
  | _, [] => true
  | n, c :: t =>
    if c = '\n' then decide (n < 2) && noTripleNLGo (n + 1) t
    else noTripleNLGo 0 t

/-- No run of three or more newlines. -/
def noTripleNL (l : List Char) : Bool := noTripleNLGo 0 l

/-- No hyphen whose following maximal whitespace run contains a newline:
exactly the strings fixed by the hyphen-break removal. -/
def noHyphenBreak : List Char → Bool
  | [] => true
  | c :: t =>
    (!(c = '-' && (t.takeWhile isPySpace).contains '\n')) && noHyphenBreak t

/-- Every line is already stripped. -/
def linesStripped (l : List Char) : Bool :=
  (splitOnCh '\n' l).all (fun x => pyStripL x == x)

/-- The conjunction of the stage fixpoint conditions that the output of
`clean_extracted_text` satisfies. -/
def cleanInv (t : List Char) : Bool :=
  noBlankIssue false t && noHyphenBreak t && linesStripped t && edgeClean t

/-- No position where a hyphen is followed only by whitespace up to the
end of the list (inside a line, such a hyphen would sit directly before
the newline after the line is rejoined). -/
def noHyphenTail : List Char → Bool
  | [] => true
  | c :: t => (!(c = '-' && t.all isPySpace)) && noHyphenTail t

/-- Remove trailing Python whitespace (the right half of `str.strip`). -/
def dropTrailWs (l : List Char) : List Char :=
  (l.reverse.dropWhile isPySpace).reverse

/-- Every line except possibly the first is already stripped. -/
def tailsStripped (l : List Char) : Bool :=
  ((splitOnCh '\n' l).tail).all (fun x => pyStripL x == x)

/-- Every segment except possibly the last satisfies `noHyphenTail`. -/
def allButLastHT : List (List Char) → Bool
  | [] => true
  | [_] => true
  | s :: r => noHyphenTail s && allButLastHT r

/-! ## Substring lemmas for the formatter round-trip -/

theorem startsWithL_append (p r : List Char) : startsWithL p (p ++ r) = true := by
  induction p with
  | nil => rfl
  | cons c t ih => simp [startsWithL, ih]

theorem isSubstr_of_startsWithL {p t : List Char} (h : startsWithL p t = true) :
    isSubstr p t = true := by
  cases t with
  | nil => simpa [isSubstr] using h
  | cons c u => simp [isSubstr, h]

theorem isSubstr_cons {p t : List Char} (c : Char) (h : isSubstr p t = true) :
    isSubstr p (c :: t) = true := by
  simp [isSubstr, h]

theorem isSubstr_append_left {p t : List Char} (x : List Char) (h : isSubstr p t = true) :
    isSubstr p (x ++ t) = true := by
  induction x with
  | nil => simpa using h
  | cons c u ih => simpa using isSubstr_cons c ih

theorem startsWithL_append_right {p t : List Char} (y : List Char)
    (h : startsWithL p t = true) : startsWithL p (t ++ y) = true := by
  induction p generalizing t with
  | nil => rfl
  | cons c u ih =>
    cases t with
    | nil => simp [startsWithL] at h
    | cons d v =>
      simp only [startsWithL, Bool.and_eq_true] at h
      simpa [startsWithL, h.1] using ih h.2

theorem isSubstr_append_right {p t : List Char} (y : List Char) (h : isSubstr p t = true) :
    isSubstr p (t ++ y) = true := by
  induction t with
  | nil =>
    simp only [isSubstr] at h
    exact isSubstr_of_startsWithL (startsWithL_append_right y h)
  | cons c u ih =>
    simp only [isSubstr, Bool.or_eq_true] at h
    rcases h with h | h
    · exact isSubstr_of_startsWithL (startsWithL_append_right y h)
    · simpa [isSubstr] using Or.inr (ih h)

theorem isSubstr_sandwich (p x y : List Char) : isSubstr p (x ++ p ++ y) = true := by
  have h1 : isSubstr p (p ++ y) = true :=
    isSubstr_of_startsWithL (startsWithL_append p y)
  simpa [List.append_assoc] using isSubstr_append_left x h1

theorem isSubstr_refl (p : List Char) : isSubstr p p = true := by
  simpa using isSubstr_sandwich p [] []

/-- A member of a joined line list appears between explicit context, so
any substring of the member is a substring of the join. -/
theorem isSubstr_joinWithCh {s : String} {L : List String} (hm : s ∈ L)
    {p : List Char} (hp : isSubstr p s.data = true) :
    isSubstr p (joinWithCh '\n' (L.map String.data)) = true := by
  induction L with
  | nil => cases hm
  | cons a t ih =>
    rcases List.mem_cons.mp hm with rfl | hm2
    · cases t with
      | nil => simpa [joinWithCh] using hp
      | cons b u =>
        simp only [List.map, joinWithCh]
        exact isSubstr_append_right _ hp
    · cases t with
      | nil => cases hm2
      | cons b u =>
        simp only [List.map, joinWithCh]
        exact isSubstr_append_left _ (isSubstr_cons '\n' (ih hm2))

/-- String-level version: a value that is a substring of some line of a
section list is a substring of the formatted output. -/
theorem strContains_of_mem_join {v line : String} {L : List String} (hm : line ∈ L)
    (hp : isSubstr v.data line.data = true) : strContains v (pyJoinNL L) = true := by
  unfold strContains pyJoinNL
  exact isSubstr_joinWithCh hm hp

/-- A string is a substring of `prefix ++ itself`. -/
theorem strContains_append_self (v a : String) : strContains v (a ++ v) = true := by
  unfold strContains
  have : (a ++ v).data = a.data ++ v.data ++ [] := by simp
  rw [this]
  exact isSubstr_sandwich v.data a.data []

/-- A string is a substring of `prefix ++ itself ++ suffix`. -/
theorem strContains_mid (v a b : String) : strContains v (a ++ v ++ b) = true := by
  unfold strContains
  have : (a ++ v ++ b).data = a.data ++ v.data ++ b.data := by simp
  rw [this]
  exact isSubstr_sandwich v.data a.data b.data

/-- A nonempty list has `isEmpty = false`. -/
theorem isEmpty_false_of_ne {α : Type} {l : List α} (h : l ≠ []) : l.isEmpty = false := by
  cases l with
  | nil => exact absurd rfl h
  | cons a t => rfl

/-! ## Claim C5: the fixed-stride pairing window -/

/-- For a 1-indexed numeric area the window of the source equals the
slice form stated by the specification. -/
theorem relatedThermal_eq_slice (readings : List ThermalReading) (N : Nat) (hN : 1 ≤ N) :
    relatedThermal readings N =
      (readings.take (min (3 * N) readings.length)).drop (3 * (N - 1)) := by
  unfold relatedThermal
  have h3 : (N - 1) * 3 + 3 = 3 * N := by omega
  have h4 : (N - 1) * 3 = 3 * (N - 1) := by ring
  rw [h3, h4]

/-- Positionally, the merged observation at index `i` is the merge of the
area record at index `i`. -/
theorem merge_observations_get (insp : InspectionSections) (th : ThermalSections)
    (i : Nat) (h1 : i < insp.impacted_areas.length)
    (h2 : i < (merge_observations insp th).length) :
    (merge_observations insp th).get ⟨i, h2⟩ =
      mergeOneObs th.readings (insp.impacted_areas.get ⟨i, h1⟩) := by
  simp [merge_observations, List.get_eq_getElem, List.getElem_map]

/-- C5: for every numeric area number N ≥ 1 and every readings list, the
thermal readings paired with area N by the Merge Engine are exactly the
slice readings[3(N-1) : min(3N, len(readings))]; areas with non-numeric
labels receive an empty thermal pairing. -/
theorem C5_pairing_window (insp : InspectionSections) (th : ThermalSections)
    (i : Nat) (h1 : i < insp.impacted_areas.length)
    (h2 : i < (merge_observations insp th).length) :
    (∀ N : Nat, (insp.impacted_areas.get ⟨i, h1⟩).area_number = AreaNum.num N → 1 ≤ N →
      ((merge_observations insp th).get ⟨i, h2⟩).thermal_readings =
        (th.readings.take (min (3 * N) th.readings.length)).drop (3 * (N - 1))) ∧
    (∀ s : String, (insp.impacted_areas.get ⟨i, h1⟩).area_number = AreaNum.label s →
      ((merge_observations insp th).get ⟨i, h2⟩).thermal_readings = []) := by
  rw [merge_observations_get insp th i h1 h2]
  set a := insp.impacted_areas.get ⟨i, h1⟩ with ha
  constructor
  · intro N hnum hN
    rw [← relatedThermal_eq_slice th.readings N hN]
    unfold mergeOneObs
    rw [hnum]
    have hpos : 0 < N := hN
    simp only [hpos, if_pos]
    by_cases hrel : (relatedThermal th.readings N).isEmpty
    · simp only [hrel, if_pos]
      simp only [List.isEmpty_iff] at hrel
      simp [hrel]
    · simp only [hrel]
      simp
  · intro s hlab
    unfold mergeOneObs
    rw [hlab]

/-- C5 witness: with seven readings, area 3 receives exactly the clipped
window [6, 7) and a labelled area receives nothing. -/
theorem C5_pairing_window_witness :
    ((merge_observations
        { raw_text := "", site_details := "",
          impacted_areas := [{ area_number := .num 1 }, { area_number := .num 3 },
            { area_number := .label "X" }],
          checklists := "", summary_table := "" }
        { raw_text := "",
          readings := [{ image_number := some 1 }, { image_number := some 2 },
            { image_number := some 3 }, { image_number := some 4 }, { image_number := some 5 },
            { image_number := some 6 }, { image_number := some 7 }],
          num_images := 7 }).get ⟨1, by decide⟩).thermal_readings =
      [{ image_number := some 7 }] ∧
    ((merge_observations
        { raw_text := "", site_details := "",
          impacted_areas := [{ area_number := .num 1 }, { area_number := .num 3 },
            { area_number := .label "X" }],
          checklists := "", summary_table := "" }
        { raw_text := "",
          readings := [{ image_number := some 1 }, { image_number := some 2 },
            { image_number := some 3 }, { image_number := some 4 }, { image_number := some 5 },
            { image_number := some 6 }, { image_number := some 7 }],
          num_images := 7 }).get ⟨2, by decide⟩).thermal_readings = [] := by
  constructor
  · rw [(C5_pairing_window _ _ 1 (by decide) (by decide)).1 3 (by decide) (by decide)]
    decide
  · exact (C5_pairing_window _ _ 2 (by decide) (by decide)).2 "X" (by decide)

/-! ## Claim C6: thermal-summary null safety -/

/-- C6 counterexample: with zero readings the summary dict of the source
has no `avg_hotspot` and no `temp_differential` key at all (modelled as
`none`), so those aggregates do not equal the sentinel string
`"Not Available"` as the claim demands. -/
theorem C6_empty_summary_missing_keys :
    (summarize_thermal { raw_text := "", readings := [], num_images := 0 }).avg_hotspot
        = none ∧
    (summarize_thermal { raw_text := "", readings := [], num_images := 0 }).temp_differential
        = none ∧
    (summarize_thermal { raw_text := "", readings := [], num_images := 0 }).avg_hotspot
        ≠ some "Not Available" ∧
    (summarize_thermal { raw_text := "", readings := [], num_images := 0 }).total_images
        = 0 := by
  decide

/-- C6 (amended): with zero readings, `total_images = 0` and the overall
hotspot/coldspot equal `"Not Available"`, but the `avg_hotspot`,
`temp_differential` and `emissivity` keys are absent; with at least one
reading, readings whose hotspot/coldspot strings fail to parse are
silently excluded, so if none parses every aggregate value is the
sentinel (with all keys present). -/
theorem C6_null_safety (th : ThermalSections) :
    (th.readings = [] → summarize_thermal th =
      { total_images := 0, overall_hotspot := "Not Available",
        overall_coldspot := "Not Available", avg_hotspot := none,
        temp_differential := none, device_used := "Not Available",
        inspection_date := "Not Available", emissivity := none }) ∧
    (th.readings ≠ [] → (∀ r ∈ th.readings, hotFloat r = none ∧ coldFloat r = none) →
      (summarize_thermal th).overall_hotspot = "Not Available" ∧
      (summarize_thermal th).overall_coldspot = "Not Available" ∧
      (summarize_thermal th).avg_hotspot = some "Not Available" ∧
      (summarize_thermal th).temp_differential = some "Not Available") := by
  constructor
  · intro h
    unfold summarize_thermal
    simp [h]
  · intro hne hall
    have hhot : th.readings.filterMap hotFloat = [] := by
      rw [List.filterMap_eq_nil_iff]
      intro r hr
      exact (hall r hr).1
    have hcold : th.readings.filterMap coldFloat = [] := by
      rw [List.filterMap_eq_nil_iff]
      intro r hr
      exact (hall r hr).2
    have hemp : th.readings.isEmpty = false := isEmpty_false_of_ne hne
    unfold summarize_thermal
    simp [hemp, hhot, hcold]

/-- C6 witness: one reading whose hotspot text has two dots fails float
parsing and is excluded, leaving every aggregate at the sentinel. -/
theorem C6_null_safety_witness :
    (summarize_thermal
      { raw_text := "", readings := [{ hotspot := some "3.4.5°C" }], num_images := 1 }).avg_hotspot = some "Not Available" ∧
    (summarize_thermal
      { raw_text := "", readings := [{ hotspot := some "3.4.5°C" }], num_images := 1 }).overall_hotspot = "Not Available" := by
  have h := (C6_null_safety
    { raw_text := "", readings := [{ hotspot := some "3.4.5°C" }], num_images := 1 }).2
    (by decide) (by decide)
  exact ⟨h.2.2.1, h.1⟩

/-! ## Claim C7: the temperature_range field -/

/-- C7 counterexample: an area whose pairing window is non-empty but
exposes no hotspot value gets an observation dict with no
`temperature_range` key at all (modelled as `none`), contradicting the
claim that the field is always present. -/
theorem C7_range_key_absent :
    (merge_observations
        { raw_text := "", site_details := "",
          impacted_areas := [{ area_number := .num 1 }],
          checklists := "", summary_table := "" }
        { raw_text := "", readings := [{ coldspot := some "21.0 °C" }],
          num_images := 1 }).map (fun o => o.temperature_range) = [none] := by
  decide

/-- C7 (amended): `temperature_range` equals the display string
`min(hotspots) to max(hotspots)` (Python string min/max) when the paired
window exposes at least one truthy hotspot; it equals `"Not Available"`
for a non-numeric label, a zero area number, or an empty window; and the
key is absent (`none`) when the window is non-empty but exposes no
hotspot. -/
theorem C7_range_cases (insp : InspectionSections) (th : ThermalSections)
    (i : Nat) (h1 : i < insp.impacted_areas.length)
    (h2 : i < (merge_observations insp th).length) :
    (∀ N : Nat, (insp.impacted_areas.get ⟨i, h1⟩).area_number = AreaNum.num N → 1 ≤ N →
      (hotspotTemps (relatedThermal th.readings N) ≠ [] →
        ((merge_observations insp th).get ⟨i, h2⟩).temperature_range =
          some (pyMinStr (hotspotTemps (relatedThermal th.readings N)) ++ " to " ++
            pyMaxStr (hotspotTemps (relatedThermal th.readings N)))) ∧
      (relatedThermal th.readings N = [] →
        ((merge_observations insp th).get ⟨i, h2⟩).temperature_range =
          some "Not Available") ∧
      (relatedThermal th.readings N ≠ [] → hotspotTemps (relatedThermal th.readings N) = [] →
        ((merge_observations insp th).get ⟨i, h2⟩).temperature_range = none)) ∧
    ((insp.impacted_areas.get ⟨i, h1⟩).area_number = AreaNum.num 0 →
      ((merge_observations insp th).get ⟨i, h2⟩).temperature_range = some "Not Available") ∧
    (∀ s : String, (insp.impacted_areas.get ⟨i, h1⟩).area_number = AreaNum.label s →
      ((merge_observations insp th).get ⟨i, h2⟩).temperature_range = some "Not Available") := by
  rw [merge_observations_get insp th i h1 h2]
  refine ⟨?_, ?_, ?_⟩
  · intro N hnum hN
    have hpos : 0 < N := hN
    refine ⟨?_, ?_, ?_⟩
    · intro htemps
      unfold mergeOneObs
      rw [hnum]
      have hrel : (relatedThermal th.readings N).isEmpty = false := by
        refine isEmpty_false_of_ne (fun hcon => htemps ?_)
        simp [hotspotTemps, hcon]
      simp [hpos, hrel, htemps]
    · intro hrel
      unfold mergeOneObs
      rw [hnum]
      simp [hpos, hrel]
    · intro hrel htemps
      have hrel2 : (relatedThermal th.readings N).isEmpty = false :=
        isEmpty_false_of_ne hrel
      unfold mergeOneObs
      rw [hnum]
      simp [hpos, hrel2, htemps]
  · intro hnum
    unfold mergeOneObs
    rw [hnum]
    simp
  · intro s hlab
    unfold mergeOneObs
    rw [hlab]

/-- C7 witness: a window with two hotspot values produces the min-to-max
display string. -/
theorem C7_range_cases_witness :
    ((merge_observations
        { raw_text := "", site_details := "",
          impacted_areas := [{ area_number := .num 1 }],
          checklists := "", summary_table := "" }
        { raw_text := "",
          readings := [{ hotspot := some "34.5°C" }, { hotspot := some "30.1 °C" }],
          num_images := 2 }).get ⟨0, by decide⟩).temperature_range =
      some "30.1 °C to 34.5°C" := by
  rw [((C7_range_cases _ _ 0 (by decide) (by decide)).1 1 (by decide) (by decide)).1
    (by decide)]
  decide

/-! ## Claim C8: date-mismatch conflict emission -/

/-- C8: a `date_mismatch` conflict is emitted exactly when a
`DD.MM.YYYY`-style date occurs in the site details, the first thermal
reading carries a slash-separated date, and the literal day or month
substrings differ; in particular `15.03.2024` versus `20/03/24` yields
exactly one such conflict and `15.03.2024` versus `15/03/24` yields
none. -/
theorem C8_date_mismatch_exact :
    (∀ (insp : InspectionSections) (th : ThermalSections),
      (detect_conflicts insp th).countP (fun c => c.type == "date_mismatch") = 1 ↔
        ∃ d t, findInspDate insp.site_details.data = some d ∧
          firstThermalDate th = some t ∧
          2 ≤ (splitOnCh '.' d.data).length ∧ 2 ≤ (splitOnCh '/' t.data).length ∧
          ((splitOnCh '.' d.data).headD [] ≠ (splitOnCh '/' t.data).headD [] ∨
           (splitOnCh '.' d.data).getD 1 [] ≠ (splitOnCh '/' t.data).getD 1 [])) ∧
    (detect_conflicts
      { raw_text := "", site_details := "Inspection Date: 15.03.2024",
        impacted_areas := [], checklists := "", summary_table := "" }
      { raw_text := "", readings := [{ date := some "20/03/24" }],
        num_images := 1 }).countP (fun c => c.type == "date_mismatch") = 1 ∧
    (detect_conflicts
      { raw_text := "", site_details := "Inspection Date: 15.03.2024",
        impacted_areas := [], checklists := "", summary_table := "" }
      { raw_text := "", readings := [{ date := some "15/03/24" }],
        num_images := 1 }).countP (fun c => c.type == "date_mismatch") = 0 := by
  refine ⟨?_, by decide, by decide⟩
  intro insp th
  unfold detect_conflicts
  rw [List.countP_append]
  have hmiss : (missingThermalConflict insp th).countP
      (fun c => c.type == "date_mismatch") = 0 := by
    unfold missingThermalConflict
    split
    · simp [List.countP_cons]
    · rfl
  rw [hmiss, Nat.add_zero]
  unfold dateConflicts
  rcases hd : findInspDate insp.site_details.data with _ | d
  · simp only [hd]
    refine iff_of_false (by simp) ?_
    rintro ⟨d2, t2, hfd, -⟩
    exact Option.noConfusion hfd
  · rcases ht : firstThermalDate th with _ | t
    · simp only [hd, ht]
      refine iff_of_false (by simp) ?_
      rintro ⟨d2, t2, hfd, hft, -⟩
      exact Option.noConfusion hft
    · simp only [hd, ht]
      by_cases hl1 : 2 ≤ (splitOnCh '.' d.data).length
      · by_cases hl2 : 2 ≤ (splitOnCh '/' t.data).length
        · by_cases hda : (splitOnCh '.' d.data).headD [] = (splitOnCh '/' t.data).headD []
          · by_cases hmo :
                (splitOnCh '.' d.data).getD 1 [] = (splitOnCh '/' t.data).getD 1 []
            · simp only [hl1, hl2, hda, hmo, decide_True, Bool.and_self, if_true,
                ne_eq, not_true_eq_false, decide_False, Bool.or_self, if_false]
              refine iff_of_false (by simp) ?_
              rintro ⟨d2, t2, hfd, hft, -, -, hne⟩
              injection hfd with he1
              injection hft with he2
              subst he1
              subst he2
              rcases hne with hne | hne
              · exact hne (by simpa using hda)
              · exact hne (by simpa using hmo)
            · simp only [hl1, hl2, decide_True, Bool.and_self, if_true]
              have hcond : ((splitOnCh '.' d.data).headD [] ≠
                    (splitOnCh '/' t.data).headD [] ||
                  (splitOnCh '.' d.data).getD 1 [] ≠ (splitOnCh '/' t.data).getD 1 []) =
                    true := by
                rw [Bool.or_eq_true]
                right
                simpa using hmo
              rw [if_pos hcond]
              refine iff_of_true (by simp [List.countP_cons])
                ⟨d, t, rfl, rfl, by simpa using hl1, by simpa using hl2, ?_⟩
              right
              simpa using hmo
          · simp only [hl1, hl2, decide_True, Bool.and_self, if_true]
            have hcond : ((splitOnCh '.' d.data).headD [] ≠
                  (splitOnCh '/' t.data).headD [] ||
                (splitOnCh '.' d.data).getD 1 [] ≠ (splitOnCh '/' t.data).getD 1 []) =
                  true := by
              rw [Bool.or_eq_true]
              left
              simpa using hda
            rw [if_pos hcond]
            refine iff_of_true (by simp [List.countP_cons])
              ⟨d, t, rfl, rfl, by simpa using hl1, by simpa using hl2, ?_⟩
            left
            simpa using hda
        · simp only [hl1, hl2, decide_True, decide_False, Bool.and_false, if_false]
          refine iff_of_false (by simp) ?_
          rintro ⟨d2, t2, hfd, hft, -, hlen2, -⟩
          injection hft with he2
          subst he2
          exact hl2 (by simpa using hlen2)
      · simp only [hl1, decide_False, Bool.false_and, if_false]
        refine iff_of_false (by simp) ?_
        rintro ⟨d2, t2, hfd, hft, hlen1, -, -⟩
        injection hfd with he1
        subst he1
        exact hl1 (by simpa using hlen1)

/-! ## Claim C10: no empty thermal readings; num_images coherence -/

/-- C10: every materialized reading has at least one populated field,
`num_images` always equals the length of the readings list, and the
`num_images == 0` test coincides with the list being empty. -/
theorem C10_reading_materialization (raw : String) :
    (∀ r ∈ (extract_thermal_report_text raw).readings, readingNonEmpty r = true) ∧
    (extract_thermal_report_text raw).num_images =
      (extract_thermal_report_text raw).readings.length ∧
    ((extract_thermal_report_text raw).num_images = 0 ↔
      (extract_thermal_report_text raw).readings = []) := by
  refine ⟨?_, rfl, ?_⟩
  · intro r hr
    simp only [extract_thermal_report_text, parse_thermal_readings] at hr
    rcases List.mem_filterMap.mp hr with ⟨pg, _, hf⟩
    by_cases hblank : (pyStripL pg.data).isEmpty
    · simp [hblank] at hf
    · simp only [hblank, if_neg, Bool.false_eq_true, not_false_iff, if_false] at hf
      by_cases hne : readingNonEmpty (parseThermalPage pg.data)
      · simp only [hne, if_true] at hf
        cases hf
        exact hne
      · simp [hne] at hf
  · simp only [extract_thermal_report_text]
    exact List.length_eq_zero

/-- C10 witness: a page with one hotspot line yields one reading, and it
is non-empty. -/
theorem C10_reading_materialization_witness :
    readingNonEmpty
      (((extract_thermal_report_text "Hotspot: 34.5C").readings).headD {}) = true := by
  have h := C10_reading_materialization "Hotspot: 34.5C"
  exact h.1 _ (by decide)

/-! ## Claim C1: the deep single-area fallback -/

/-- C1 counterexample: on a text where no area-header pattern matches and
the secondary observation split also fails, but a site-details pattern
does match a proper sub-span, the fallback condition of the source
(`site_details == cleaned[:800]`) is false and `impacted_areas` stays
empty — the synthesized record is not produced. -/
theorem C1_fallback_not_unconditional :
    pickSplitCap areaMatchers (clean_extracted_text "X\nCustomer Name: Bob").data = none ∧
    pickSplitNoCap obsMatchers (clean_extracted_text "X\nCustomer Name: Bob").data = none ∧
    (extract_inspection_report_text "X\nCustomer Name: Bob").impacted_areas = [] := by
  decide

/-- C1 (amended): when no area-header pattern splits the text, the
observation-marker split also fails, and additionally the extracted
site details equal the first 800 characters of the cleaned text (the
site extraction also fell through), the structurer synthesizes exactly
one record numbered 1 whose raw content is the first 2000 characters and
whose side fields are both the sentinel. -/
theorem C1_fallback_guarantee (raw : String)
    (harea : pickSplitCap areaMatchers (clean_extracted_text raw).data = none)
    (hobs : pickSplitNoCap obsMatchers (clean_extracted_text raw).data = none)
    (hsite : extract_site_details (clean_extracted_text raw) =
      pyTake 800 (clean_extracted_text raw)) :
    (extract_inspection_report_text raw).impacted_areas =
      [synthFallbackArea (clean_extracted_text raw)] ∧
    (synthFallbackArea (clean_extracted_text raw)).area_number = .num 1 ∧
    (synthFallbackArea (clean_extracted_text raw)).raw_content =
      some (pyTake 2000 (clean_extracted_text raw)) ∧
    (synthFallbackArea (clean_extracted_text raw)).negative_side = some "Not Available" ∧
    (synthFallbackArea (clean_extracted_text raw)).positive_side = some "Not Available" := by
  have hareas : extract_impacted_areas (clean_extracted_text raw) = [] := by
    unfold extract_impacted_areas
    rw [harea, hobs]
  refine ⟨?_, rfl, rfl, rfl, rfl⟩
  unfold extract_inspection_report_text
  simp [hareas, hsite]

/-- C1 witness: a plain text with no matching pattern at all produces the
synthesized record. -/
theorem C1_fallback_guarantee_witness :
    (extract_inspection_report_text "hello world").impacted_areas =
      [synthFallbackArea (clean_extracted_text "hello world")] := by
  exact (C1_fallback_guarantee "hello world" (by decide) (by decide) (by decide)).1

/-! ## Claim C2: record completeness across the three paths -/

/-- Records of the secondary observation-marker path carry only
`area_number` and `description`. -/
theorem buildObsAreas_shape (ps : List String) :
    ∀ (i : Nat) (a : AreaRecord), a ∈ buildObsAreas i ps →
      a.description.isSome = true ∧ a.negative_side = none ∧
      a.positive_side = none ∧ a.raw_content = none := by
  induction ps with
  | nil => intro i a h; simp [buildObsAreas] at h
  | cons p t ih =>
    intro i a h
    unfold buildObsAreas at h
    rw [List.mem_append] at h
    rcases h with h | h
    · split at h
      · simp at h
      · rcases List.mem_singleton.mp h with rfl
        simp
    · exact ih (i + 1) a h

/-- Records of `_extract_impacted_areas` either come from the primary
split (all three side/content fields present, no description) or from
the secondary split (description only). -/
theorem extract_impacted_areas_shape (text : String) :
    ∀ a ∈ extract_impacted_areas text,
      (a.description = none ∧ a.negative_side.isSome = true ∧
        a.positive_side.isSome = true ∧ a.raw_content.isSome = true) ∨
      (a.description.isSome = true ∧ a.negative_side = none ∧
        a.positive_side = none ∧ a.raw_content = none) := by
  intro a ha
  unfold extract_impacted_areas at ha
  split at ha
  · rcases List.mem_map.mp ha with ⟨pr, -, rfl⟩
    left
    simp [mkAreaRecord]
  · split at ha
    · right
      exact buildObsAreas_shape _ 1 a ha
    · simp at ha

/-- C2 counterexample: an input that only the secondary
observation-marker split handles produces an area record with no
negative_side, positive_side or raw_content key. -/
theorem C2_secondary_record_missing_keys :
    ((extract_inspection_report_text "Damage Observed wall wet").impacted_areas.map
      (fun a => (a.negative_side.isSome, a.positive_side.isSome,
        a.raw_content.isSome, a.description.isSome))) = [(false, false, false, true)] := by
  decide

/-- C2 (amended): the structurers are total by construction and the
five-key top-level records always carry every key, but impacted-area
records have one of three shapes: primary-split records carry
negative_side, positive_side and raw_content (and no description);
secondary-split records carry only area_number and description; the
synthesized fallback record carries all four fields with sentinel
sides. -/
theorem C2_record_shapes (raw : String) :
    ∀ a ∈ (extract_inspection_report_text raw).impacted_areas,
      (a.description = none ∧ a.negative_side.isSome = true ∧
        a.positive_side.isSome = true ∧ a.raw_content.isSome = true) ∨
      (a.description.isSome = true ∧ a.negative_side = none ∧
        a.positive_side = none ∧ a.raw_content = none) ∨
      (a.description.isSome = true ∧ a.negative_side = some "Not Available" ∧
        a.positive_side = some "Not Available" ∧ a.raw_content.isSome = true) := by
  intro a ha
  unfold extract_inspection_report_text at ha
  split at ha
  · rcases List.mem_singleton.mp ha with rfl
    right; right
    simp [synthFallbackArea]
  · rcases extract_impacted_areas_shape _ a ha with h | h
    · exact Or.inl h
    · exact Or.inr (Or.inl h)

/-- C2 witness: a primary-split record carries the three content fields
and no description. -/
theorem C2_record_shapes_witness :
    (((extract_inspection_report_text "Impacted Area 1 wet wall").impacted_areas.headD
        { area_number := .num 0 }).description = none ∧
      ((extract_inspection_report_text "Impacted Area 1 wet wall").impacted_areas.headD
        { area_number := .num 0 }).negative_side.isSome = true ∧
      ((extract_inspection_report_text "Impacted Area 1 wet wall").impacted_areas.headD
        { area_number := .num 0 }).positive_side.isSome = true ∧
      ((extract_inspection_report_text "Impacted Area 1 wet wall").impacted_areas.headD
        { area_number := .num 0 }).raw_content.isSome = true) ∨
    (((extract_inspection_report_text "Impacted Area 1 wet wall").impacted_areas.headD
        { area_number := .num 0 }).description.isSome = true ∧
      ((extract_inspection_report_text "Impacted Area 1 wet wall").impacted_areas.headD
        { area_number := .num 0 }).negative_side = none ∧
      ((extract_inspection_report_text "Impacted Area 1 wet wall").impacted_areas.headD
        { area_number := .num 0 }).positive_side = none ∧
      ((extract_inspection_report_text "Impacted Area 1 wet wall").impacted_areas.headD
        { area_number := .num 0 }).raw_content = none) ∨
    (((extract_inspection_report_text "Impacted Area 1 wet wall").impacted_areas.headD
        { area_number := .num 0 }).description.isSome = true ∧
      ((extract_inspection_report_text "Impacted Area 1 wet wall").impacted_areas.headD
        { area_number := .num 0 }).negative_side = some "Not Available" ∧
      ((extract_inspection_report_text "Impacted Area 1 wet wall").impacted_areas.headD
        { area_number := .num 0 }).positive_side = some "Not Available" ∧
      ((extract_inspection_report_text "Impacted Area 1 wet wall").impacted_areas.headD
        { area_number := .num 0 }).raw_content.isSome = true) := by
  exact C2_record_shapes "Impacted Area 1 wet wall" _ (by decide)

/-! ## Claim C3: truncation bounds -/

/-- `s[:n]` has length at most `n`. -/
theorem pyTake_length_le (n : Nat) (s : String) : (pyTake n s).length ≤ n :=
  List.length_take_le n s.data

/-- Stripping never lengthens a list. -/
theorem pyStripL_length_le (l : List Char) : (pyStripL l).length ≤ l.length := by
  unfold pyStripL
  calc ((l.dropWhile isPySpace).reverse.dropWhile isPySpace).reverse.length
      = ((l.dropWhile isPySpace).reverse.dropWhile isPySpace).length := by
        rw [List.length_reverse]
    _ ≤ (l.dropWhile isPySpace).reverse.length :=
        (List.dropWhile_sublist _).length_le
    _ = (l.dropWhile isPySpace).length := by rw [List.length_reverse]
    _ ≤ l.length := (List.dropWhile_sublist _).length_le

/-- Stripping never lengthens a string. -/
theorem pyStrip_length_le (s : String) : (pyStrip s).length ≤ s.length :=
  pyStripL_length_le s.data

/-- Secondary-split descriptions are capped at 500 characters. -/
theorem buildObsAreas_desc_le (ps : List String) :
    ∀ (i : Nat) (a : AreaRecord), a ∈ buildObsAreas i ps →
      ∀ s, a.description = some s → s.length ≤ 500 := by
  induction ps with
  | nil => intro i a h; simp [buildObsAreas] at h
  | cons p t ih =>
    intro i a h
    unfold buildObsAreas at h
    rw [List.mem_append] at h
    rcases h with h | h
    · split at h
      · simp at h
      · rcases List.mem_singleton.mp h with rfl
        intro s hs
        cases hs
        exact le_trans (pyStrip_length_le _) (pyTake_length_le 500 _)
    · exact ih (i + 1) a h

/-- C3 counterexample: a 602-character text with no matching patterns
falls through to the synthesized record, whose `raw_content` is the
first 2000 characters — here 602 characters, exceeding the claimed
600-character bound. -/
theorem C3_fallback_exceeds_bound :
    ((extract_inspection_report_text (String.mk (List.replicate 602 'a'))).impacted_areas.map
      (fun a => (a.raw_content.getD "").length)) = [602] := by
  decide

/-- C3 (amended): side fields are bounded by 400 characters everywhere;
`raw_content` is bounded by 600 on records of the area-split path (those
with no description field) and by 2000 in general (the synthesized
fallback record holds up to 2000 characters); secondary-split
descriptions are bounded by 500, the fallback description by 2000. -/
theorem C3_truncation_bounds (raw : String) :
    ∀ a ∈ (extract_inspection_report_text raw).impacted_areas,
      (∀ s, a.negative_side = some s → s.length ≤ 400) ∧
      (∀ s, a.positive_side = some s → s.length ≤ 400) ∧
      (∀ s, a.raw_content = some s → s.length ≤ 2000) ∧
      (a.description = none → ∀ s, a.raw_content = some s → s.length ≤ 600) ∧
      (a.raw_content = none → ∀ s, a.description = some s → s.length ≤ 500) ∧
      (∀ s, a.description = some s → s.length ≤ 2000) := by
  intro a ha
  unfold extract_inspection_report_text at ha
  split at ha
  · rcases List.mem_singleton.mp ha with rfl
    refine ⟨?_, ?_, ?_, ?_, ?_, ?_⟩
    · intro s hs
      cases hs
      decide
    · intro s hs
      cases hs
      decide
    · intro s hs
      cases hs
      exact pyTake_length_le 2000 _
    · intro hdesc
      simp [synthFallbackArea] at hdesc
    · intro hraw
      simp [synthFallbackArea] at hraw
    · intro s hs
      cases hs
      exact pyTake_length_le 2000 _
  · unfold extract_impacted_areas at ha
    split at ha
    · rcases List.mem_map.mp ha with ⟨pr, -, rfl⟩
      refine ⟨?_, ?_, ?_, ?_, ?_, ?_⟩
      · intro s hs
        simp only [mkAreaRecord, Option.some.injEq] at hs
        subst hs
        split
        · exact pyTake_length_le 400 _
        · decide
      · intro s hs
        simp only [mkAreaRecord, Option.some.injEq] at hs
        subst hs
        split
        · exact pyTake_length_le 400 _
        · decide
      · intro s hs
        simp only [mkAreaRecord, Option.some.injEq] at hs
        subst hs
        exact le_trans (pyTake_length_le 600 _) (by omega)
      · intro hdesc s hs
        simp only [mkAreaRecord, Option.some.injEq] at hs
        subst hs
        exact pyTake_length_le 600 _
      · intro hraw
        simp [mkAreaRecord] at hraw
      · intro s hs
        simp [mkAreaRecord] at hs
    · split at ha
      · have hshape := buildObsAreas_shape _ 1 a ha
        have hdesc := buildObsAreas_desc_le _ 1 a ha
        refine ⟨?_, ?_, ?_, ?_, ?_, ?_⟩
        · intro s hs
          rw [hshape.2.1] at hs
          cases hs
        · intro s hs
          rw [hshape.2.2.1] at hs
          cases hs
        · intro s hs
          rw [hshape.2.2.2] at hs
          cases hs
        · intro _ s hs
          rw [hshape.2.2.2] at hs
          cases hs
        · intro _ s hs
          exact hdesc s hs
        · intro s hs
          exact le_trans (hdesc s hs) (by omega)
      · simp at ha

/-- C3 witness: a primary-split record with a short raw content is within
the 600-character bound. -/
theorem C3_truncation_bounds_witness :
    ((extract_inspection_report_text "Impacted Area 1 wet").impacted_areas.headD
      { area_number := .num 0 }).raw_content = some "wet" ∧
    ("wet" : String).length ≤ 600 := by
  refine ⟨by decide, ?_⟩
  exact (C3_truncation_bounds "Impacted Area 1 wet"
    ((extract_inspection_report_text "Impacted Area 1 wet").impacted_areas.headD
      { area_number := .num 0 })
    (by decide)).2.2.2.1 (by decide) "wet" (by decide)

/-! ## Claim C9: formatter round-trip -/

/-- A string contains itself. -/
theorem strContains_self (v : String) : strContains v v = true := isSubstr_refl v.data

/-- The empty string is a substring of everything. -/
theorem strContains_empty (t : String) : strContains "" t = true := by
  unfold strContains
  cases t.data with
  | nil => rfl
  | cons c u => simp [isSubstr, startsWithL]

/-- Property lines are sections of the formatted output. -/
theorem mem_fs_prop (m : MergedReport) {x : String} (h : x ∈ propLines m.property_info) :
    x ∈ formatSections m := by
  unfold formatSections
  simp [List.mem_append, h]

/-- Observation lines are sections of the formatted output. -/
theorem mem_fs_obs (m : MergedReport) {obs : Observation} {x : String}
    (ho : obs ∈ m.observations) (hx : x ∈ obsLines obs) : x ∈ formatSections m := by
  unfold formatSections
  have hfl : x ∈ (m.observations.map obsLines).flatten :=
    List.mem_flatten.mpr ⟨obsLines obs, List.mem_map_of_mem _ ho, hx⟩
  simp [List.mem_append, hfl]

/-- Thermal-summary lines are sections of the formatted output. -/
theorem mem_fs_ts (m : MergedReport) {x : String} (h : x ∈ tsLines m.thermal_summary) :
    x ∈ formatSections m := by
  unfold formatSections
  simp [List.mem_append, h]

/-- The checklist block is a section of the formatted output. -/
theorem mem_fs_checklist (m : MergedReport) : m.checklist_findings ∈ formatSections m := by
  unfold formatSections
  simp [List.mem_append]

/-- The summary table is a section of the formatted output. -/
theorem mem_fs_summary (m : MergedReport) : m.summary_table ∈ formatSections m := by
  unfold formatSections
  simp [List.mem_append]

/-- Conflict lines are sections of the formatted output. -/
theorem mem_fs_conflict (m : MergedReport) {c : Conflict} (h : c ∈ m.conflicts) :
    conflictLine c ∈ formatSections m := by
  unfold formatSections
  have hne : m.conflicts ≠ [] := fun hcon => by simp [hcon] at h
  have hmem : conflictLine c ∈ m.conflicts.map conflictLine := List.mem_map_of_mem _ h
  simp [List.mem_append, hne, hmem]

/-- Missing-information lines are sections of the formatted output. -/
theorem mem_fs_missing (m : MergedReport) {x : String} (h : x ∈ m.missing_info) :
    missingLine x ∈ formatSections m := by
  unfold formatSections
  have hne : m.missing_info ≠ [] := fun hcon => by simp [hcon] at h
  have hmem : missingLine x ∈ m.missing_info.map missingLine := List.mem_map_of_mem _ h
  simp [List.mem_append, hne, hmem]

/-- The area-header line of an observation block. -/
theorem mem_obsLines_area (obs : Observation) :
    ("\n--- Area " ++ showAreaNum obs.area_number ++ " ---") ∈ obsLines obs := by
  simp [obsLines]

/-- The negative-side line of an observation block. -/
theorem mem_obsLines_neg (obs : Observation) :
    ("  Negative side (damage): " ++ obs.negative_side) ∈ obsLines obs := by
  simp [obsLines]

/-- The positive-side line of an observation block. -/
theorem mem_obsLines_pos (obs : Observation) :
    ("  Positive side (source): " ++ obs.positive_side) ∈ obsLines obs := by
  simp [obsLines]

/-- The temperature-range line, present when the value is truthy and not
the sentinel. -/
theorem mem_obsLines_range (obs : Observation) {v : String}
    (hv : obs.temperature_range = some v) (h1 : v ≠ "") (h2 : v ≠ "Not Available") :
    ("  Temperature range: " ++ v) ∈ obsLines obs := by
  simp [obsLines, hv, h1, h2]

/-- Each paired reading's inline line in an observation block. -/
theorem mem_obsLines_tr (obs : Observation) {tr : ThermalReading}
    (h : tr ∈ obs.thermal_readings) : trLine tr ∈ obsLines obs := by
  have hne : obs.thermal_readings ≠ [] := fun hcon => by simp [hcon] at h
  have hx : trLine tr ∈ obs.thermal_readings.map trLine := List.mem_map_of_mem _ h
  simp [obsLines, hne, hx]

/-- A mid-of-line substring through four concatenated pieces. -/
theorem strContains_mid2 (v a b c : String) : strContains v (a ++ v ++ b ++ c) = true := by
  rw [String.append_assoc (a ++ v) b c]
  exact strContains_mid v a (b ++ c)

/-- C9 counterexample: `raw_details` of the property info, `raw_content`
of an observation, and the `device` field of a paired thermal reading
are never rendered by the formatter, so their non-sentinel values do not
occur in the output. -/
theorem C9_unrendered_fields :
    strContains "RAWDETX"
      (format_merged_data_for_llm
        { property_info := { raw_details := "RAWDETX" }
          observations := [
            { area_number := .num 1, negative_side := "damp", raw_content := "RAWCONX",
              thermal_readings := [{ hotspot := some "34.5°C", device := some "DEVX" }] }]
          checklist_findings := "chk"
          summary_table := "tbl" }) = false ∧
    strContains "RAWCONX"
      (format_merged_data_for_llm
        { property_info := { raw_details := "RAWDETX" }
          observations := [
            { area_number := .num 1, negative_side := "damp", raw_content := "RAWCONX",
              thermal_readings := [{ hotspot := some "34.5°C", device := some "DEVX" }] }]
          checklist_findings := "chk"
          summary_table := "tbl" }) = false ∧
    strContains "DEVX"
      (format_merged_data_for_llm
        { property_info := { raw_details := "RAWDETX" }
          observations := [
            { area_number := .num 1, negative_side := "damp", raw_content := "RAWCONX",
              thermal_readings := [{ hotspot := some "34.5°C", device := some "DEVX" }] }]
          checklist_findings := "chk"
          summary_table := "tbl" }) = false := by
  decide

/-- C9 (amended): every rendered field value appears as a literal
substring of the formatted output: the eight named property fields, each
observation's area number, negative and positive sides, its
temperature_range when present and not the sentinel, the hotspot and
coldspot of each paired reading, every thermal-summary value, the
checklist block, the summary table, every conflict's type and detail,
and every missing-info entry.  (`raw_details`, observation
`raw_content`, and non-hotspot/coldspot reading fields are not
rendered.) -/
theorem C9_roundtrip (m : MergedReport) :
    (strContains m.property_info.property_type (format_merged_data_for_llm m) = true ∧
     strContains m.property_info.address (format_merged_data_for_llm m) = true ∧
     strContains m.property_info.floors (format_merged_data_for_llm m) = true ∧
     strContains m.property_info.property_age (format_merged_data_for_llm m) = true ∧
     strContains m.property_info.inspection_date (format_merged_data_for_llm m) = true ∧
     strContains m.property_info.inspected_by (format_merged_data_for_llm m) = true ∧
     strContains m.property_info.previous_repairs (format_merged_data_for_llm m) = true ∧
     strContains m.property_info.previous_audit (format_merged_data_for_llm m) = true) ∧
    (∀ obs ∈ m.observations,
      strContains (showAreaNum obs.area_number) (format_merged_data_for_llm m) = true ∧
      strContains obs.negative_side (format_merged_data_for_llm m) = true ∧
      strContains obs.positive_side (format_merged_data_for_llm m) = true ∧
      (∀ v, obs.temperature_range = some v → v ≠ "Not Available" →
        strContains v (format_merged_data_for_llm m) = true) ∧
      (∀ tr ∈ obs.thermal_readings,
        (∀ h, tr.hotspot = some h → strContains h (format_merged_data_for_llm m) = true) ∧
        (∀ c, tr.coldspot = some c → strContains c (format_merged_data_for_llm m) = true))) ∧
    (strContains (toString m.thermal_summary.total_images) (format_merged_data_for_llm m) = true ∧
     strContains m.thermal_summary.overall_hotspot (format_merged_data_for_llm m) = true ∧
     strContains m.thermal_summary.overall_coldspot (format_merged_data_for_llm m) = true ∧
     (∀ v, m.thermal_summary.avg_hotspot = some v →
       strContains v (format_merged_data_for_llm m) = true) ∧
     (∀ v, m.thermal_summary.temp_differential = some v →
       strContains v (format_merged_data_for_llm m) = true) ∧
     strContains m.thermal_summary.device_used (format_merged_data_for_llm m) = true ∧
     strContains m.thermal_summary.inspection_date (format_merged_data_for_llm m) = true ∧
     (∀ v, m.thermal_summary.emissivity = some v →
       strContains v (format_merged_data_for_llm m) = true)) ∧
    strContains m.checklist_findings (format_merged_data_for_llm m) = true ∧
    strContains m.summary_table (format_merged_data_for_llm m) = true ∧
    (∀ c ∈ m.conflicts,
      strContains c.type (format_merged_data_for_llm m) = true ∧
      strContains c.detail (format_merged_data_for_llm m) = true) ∧
    (∀ x ∈ m.missing_info, strContains x (format_merged_data_for_llm m) = true) := by
  have key : ∀ (v line : String), line ∈ formatSections m →
      strContains v line = true →
      strContains v (format_merged_data_for_llm m) = true := by
    intro v line hm hp
    exact strContains_of_mem_join hm hp
  refine ⟨⟨?_, ?_, ?_, ?_, ?_, ?_, ?_, ?_⟩, ?_, ⟨?_, ?_, ?_, ?_, ?_, ?_, ?_, ?_⟩,
    ?_, ?_, ?_, ?_⟩
  · exact key _ ("  Property Type: " ++ m.property_info.property_type)
      (mem_fs_prop m (by simp [propLines])) (strContains_append_self _ _)
  · exact key _ ("  Address: " ++ m.property_info.address)
      (mem_fs_prop m (by simp [propLines])) (strContains_append_self _ _)
  · exact key _ ("  Floors: " ++ m.property_info.floors)
      (mem_fs_prop m (by simp [propLines])) (strContains_append_self _ _)
  · exact key _ ("  Property Age: " ++ m.property_info.property_age)
      (mem_fs_prop m (by simp [propLines])) (strContains_append_self _ _)
  · exact key _ ("  Inspection Date: " ++ m.property_info.inspection_date)
      (mem_fs_prop m (by simp [propLines])) (strContains_append_self _ _)
  · exact key _ ("  Inspected By: " ++ m.property_info.inspected_by)
      (mem_fs_prop m (by simp [propLines])) (strContains_append_self _ _)
  · exact key _ ("  Previous Repairs: " ++ m.property_info.previous_repairs)
      (mem_fs_prop m (by simp [propLines])) (strContains_append_self _ _)
  · exact key _ ("  Previous Audit: " ++ m.property_info.previous_audit)
      (mem_fs_prop m (by simp [propLines])) (strContains_append_self _ _)
  · intro obs ho
    refine ⟨?_, ?_, ?_, ?_, ?_⟩
    · exact key _ _ (mem_fs_obs m ho (mem_obsLines_area obs)) (strContains_mid _ _ _)
    · exact key _ _ (mem_fs_obs m ho (mem_obsLines_neg obs)) (strContains_append_self _ _)
    · exact key _ _ (mem_fs_obs m ho (mem_obsLines_pos obs)) (strContains_append_self _ _)
    · intro v hv hNA
      by_cases hv0 : v = ""
      · subst hv0
        exact strContains_empty _
      · exact key _ _ (mem_fs_obs m ho (mem_obsLines_range obs hv hv0 hNA))
          (strContains_append_self _ _)
    · intro tr htr
      constructor
      · intro h hh
        have hline := mem_fs_obs m ho (mem_obsLines_tr obs htr)
        refine key _ _ hline ?_
        unfold trLine
        rw [hh]
        simp only [Option.getD_some]
        exact strContains_mid2 h "  Thermal: Hotspot=" ", Coldspot=" _
      · intro c hc
        have hline := mem_fs_obs m ho (mem_obsLines_tr obs htr)
        refine key _ _ hline ?_
        unfold trLine
        rw [hc]
        simp only [Option.getD_some]
        exact strContains_append_self _ _
  · exact key _ ("  Total Images: " ++ toString m.thermal_summary.total_images)
      (mem_fs_ts m (by simp [tsLines])) (strContains_append_self _ _)
  · exact key _ ("  Overall Hotspot: " ++ m.thermal_summary.overall_hotspot)
      (mem_fs_ts m (by simp [tsLines])) (strContains_append_self _ _)
  · exact key _ ("  Overall Coldspot: " ++ m.thermal_summary.overall_coldspot)
      (mem_fs_ts m (by simp [tsLines])) (strContains_append_self _ _)
  · intro v hv
    exact key _ ("  Avg Hotspot: " ++ v)
      (mem_fs_ts m (by simp [tsLines, hv])) (strContains_append_self _ _)
  · intro v hv
    exact key _ ("  Temp Differential: " ++ v)
      (mem_fs_ts m (by simp [tsLines, hv])) (strContains_append_self _ _)
  · exact key _ ("  Device Used: " ++ m.thermal_summary.device_used)
      (mem_fs_ts m (by simp [tsLines])) (strContains_append_self _ _)
  · exact key _ ("  Inspection Date: " ++ m.thermal_summary.inspection_date)
      (mem_fs_ts m (by simp [tsLines])) (strContains_append_self _ _)
  · intro v hv
    exact key _ ("  Emissivity: " ++ v)
      (mem_fs_ts m (by simp [tsLines, hv])) (strContains_append_self _ _)
  · exact key _ _ (mem_fs_checklist m) (strContains_self _)
  · exact key _ _ (mem_fs_summary m) (strContains_self _)
  · intro c hc
    constructor
    · exact key _ _ (mem_fs_conflict m hc) (strContains_mid2 _ "  ⚠ " ": " _)
    · exact key _ _ (mem_fs_conflict m hc) (strContains_append_self _ _)
  · intro x hx
    exact key _ _ (mem_fs_missing m hx) (strContains_append_self _ _)

/-- C9 witness: a concrete report's observation side text and conflict
detail occur verbatim in the formatted output. -/
theorem C9_roundtrip_witness :
    strContains "seepage near window"
      (format_merged_data_for_llm
        { observations := [{ area_number := .num 2, negative_side := "seepage near window" }]
          missing_info := ["checklist absent"] }) = true ∧
    strContains "checklist absent"
      (format_merged_data_for_llm
        { observations := [{ area_number := .num 2, negative_side := "seepage near window" }]
          missing_info := ["checklist absent"] }) = true := by
  have h := C9_roundtrip
    { observations := [{ area_number := .num 2, negative_side := "seepage near window" }]
      missing_info := ["checklist absent"] }
  exact ⟨(h.2.1 { area_number := .num 2, negative_side := "seepage near window" }
    (by decide)).2.1, h.2.2.2.2.2.2 "checklist absent" (by decide)⟩

/-! ## Text Normalizer idempotence analysis: basic whitespace facts -/

theorem headNotWs_dropWhile (l : List Char) :
    headNotWs (l.dropWhile isPySpace) = true := by
  induction l with
  | nil => rfl
  | cons c t ih =>
    cases h : isPySpace c with
    | true => simpa [List.dropWhile_cons, h] using ih
    | false => simp [List.dropWhile_cons, h, headNotWs]

theorem dropWhile_of_headNotWs {l : List Char} (h : headNotWs l = true) :
    l.dropWhile isPySpace = l := by
  cases l with
  | nil => rfl
  | cons c t =>
    have hc : isPySpace c = false := by simpa [headNotWs] using h
    simp [List.dropWhile_cons, hc]

theorem takeWhile_dropWhile_ws (l : List Char) :
    (l.dropWhile isPySpace).takeWhile isPySpace = [] := by
  have h := headNotWs_dropWhile l
  cases hd : l.dropWhile isPySpace with
  | nil => simp
  | cons c t =>
    rw [hd] at h
    have hc : isPySpace c = false := by simpa [headNotWs] using h
    simp [List.takeWhile_cons, hc]

theorem all_takeWhile_self {p : Char → Bool} (l : List Char) :
    (l.takeWhile p).all p = true := by
  simp only [List.all_eq_true]
  intro x hx
  exact List.mem_takeWhile_imp hx

theorem dropWhile_eq_nil_of_all {p : Char → Bool} {l : List Char}
    (h : l.all p = true) : l.dropWhile p = [] := by
  induction l with
  | nil => rfl
  | cons c t ih =>
    simp only [List.all_cons, Bool.and_eq_true] at h
    simp [List.dropWhile_cons, h.1, ih h.2]

/-! ## Structure of `splitOnCh` and `joinWithCh` -/

theorem splitOnCh_ne_nil (sep : Char) (l : List Char) : splitOnCh sep l ≠ [] := by
  cases l with
  | nil => simp [splitOnCh]
  | cons c t =>
    by_cases h : c = sep
    · simp [splitOnCh, h]
    · simp only [splitOnCh, if_neg h]
      cases splitOnCh sep t <;> simp

theorem splitOnCh_cons_sep (sep : Char) (t : List Char) :
    splitOnCh sep (sep :: t) = [] :: splitOnCh sep t := by
  simp [splitOnCh]

theorem splitOnCh_cons_ne {sep c : Char} (t : List Char) (h : ¬ c = sep) :
    ∃ hd tl, splitOnCh sep t = hd :: tl ∧
      splitOnCh sep (c :: t) = (c :: hd) :: tl := by
  cases hs : splitOnCh sep t with
  | nil => exact absurd hs (splitOnCh_ne_nil sep t)
  | cons hd tl =>
    refine ⟨hd, tl, rfl, ?_⟩
    simp [splitOnCh, h, hs]

theorem joinWithCh_splitOnCh (sep : Char) (l : List Char) :
    joinWithCh sep (splitOnCh sep l) = l := by
  induction l with
  | nil => rfl
  | cons c t ih =>
    by_cases h : c = sep
    · subst h
      rw [splitOnCh_cons_sep]
      cases hs : splitOnCh c t with
      | nil => exact absurd hs (splitOnCh_ne_nil c t)
      | cons hd tl =>
        rw [hs] at ih
        simp [joinWithCh, ih]
    · obtain ⟨hd, tl, hs, hc⟩ := splitOnCh_cons_ne t h
      rw [hc]
      rw [hs] at ih
      cases tl with
      | nil =>
        simp only [joinWithCh] at ih ⊢
        simp [ih]
      | cons x xs =>
        simp only [joinWithCh] at ih ⊢
        simp [ih]

theorem splitOnCh_sep_free {sep : Char} {l : List Char}
    (h : ∀ c ∈ l, ¬ c = sep) : splitOnCh sep l = [l] := by
  induction l with
  | nil => rfl
  | cons c t ih =>
    have hc : ¬ c = sep := h c (by simp)
    have ht : ∀ x ∈ t, ¬ x = sep := fun x hx => h x (by simp [hx])
    obtain ⟨hd, tl, hs, hcons⟩ := splitOnCh_cons_ne t hc
    rw [ih ht] at hs
    injection hs with h1 h2
    rw [hcons, ← h1, ← h2]

theorem splitOnCh_append_sep {sep : Char} {a : List Char} (r : List Char)
    (h : ∀ c ∈ a, ¬ c = sep) :
    splitOnCh sep (a ++ sep :: r) = a :: splitOnCh sep r := by
  induction a with
  | nil => simpa using splitOnCh_cons_sep sep r
  | cons c a2 ih =>
    have hc : ¬ c = sep := h c (by simp)
    have ha : ∀ x ∈ a2, ¬ x = sep := fun x hx => h x (by simp [hx])
    obtain ⟨hd, tl, hs, hcons⟩ := splitOnCh_cons_ne (a2 ++ sep :: r) hc
    rw [ih ha] at hs
    injection hs with h1 h2
    rw [List.cons_append, hcons, ← h1, ← h2]

theorem splitOnCh_joinWithCh {sep : Char} {segs : List (List Char)}
    (hne : segs ≠ [])
    (h : ∀ s ∈ segs, ∀ c ∈ s, ¬ c = sep) :
    splitOnCh sep (joinWithCh sep segs) = segs := by
  induction segs with
  | nil => exact absurd rfl hne
  | cons s rest ih =>
    cases rest with
    | nil =>
      simp only [joinWithCh]
      exact splitOnCh_sep_free (h s (by simp))
    | cons s2 rest2 =>
      have hj : joinWithCh sep (s :: s2 :: rest2) =
          s ++ sep :: joinWithCh sep (s2 :: rest2) := rfl
      rw [hj, splitOnCh_append_sep _ (h s (by simp)),
        ih (by simp) (fun x hx => h x (by simp [hx]))]

theorem mem_splitOnCh_sep_free {sep : Char} {l : List Char} :
    ∀ s ∈ splitOnCh sep l, ∀ c ∈ s, ¬ c = sep := by
  induction l with
  | nil =>
    intro s hs
    simp only [splitOnCh, List.mem_singleton] at hs
    subst hs
    simp
  | cons c t ih =>
    by_cases h : c = sep
    · subst h
      rw [splitOnCh_cons_sep]
      intro s hs
      rcases List.mem_cons.mp hs with h1 | h2
      · subst h1; simp
      · exact ih s h2
    · obtain ⟨hd, tl, hs0, hcons⟩ := splitOnCh_cons_ne t h
      rw [hcons]
      intro s hs
      rcases List.mem_cons.mp hs with h1 | h2
      · subst h1
        intro x hx
        rcases List.mem_cons.mp hx with h3 | h4
        · subst h3; exact h
        · exact ih hd (by rw [hs0]; simp) x h4
      · exact ih s (by rw [hs0]; exact List.mem_cons_of_mem _ h2)

theorem splitOnCh_head (sep : Char) (l : List Char) :
    ∃ tl, splitOnCh sep l =
      (l.takeWhile (fun c => !(c == sep))) :: tl := by
  induction l with
  | nil => exact ⟨[], rfl⟩
  | cons c t ih =>
    by_cases h : c = sep
    · subst h
      rw [splitOnCh_cons_sep]
      refine ⟨splitOnCh c t, ?_⟩
      simp [List.takeWhile_cons]
    · obtain ⟨hd, tl, hs, hcons⟩ := splitOnCh_cons_ne t h
      obtain ⟨tl2, hh⟩ := ih
      rw [hs] at hh
      injection hh with h1 h2
      refine ⟨tl, ?_⟩
      rw [hcons, List.takeWhile_cons]
      simp [h, ← h1]

theorem splitOnCh_append_last (sep : Char) (x : List Char) :
    splitOnCh sep (x ++ [sep]) = splitOnCh sep x ++ [[]] := by
  induction x with
  | nil => simp [splitOnCh]
  | cons c x2 ih =>
    by_cases h : c = sep
    · subst h
      rw [List.cons_append, splitOnCh_cons_sep, ih, splitOnCh_cons_sep]
      rfl
    · obtain ⟨hd, tl, hs, hcons⟩ := splitOnCh_cons_ne (x2 ++ [sep]) h
      obtain ⟨hd2, tl2, hs2, hcons2⟩ := splitOnCh_cons_ne x2 h
      rw [ih, hs2] at hs
      rw [List.cons_append, hcons, hcons2]
      injection hs with h1 h2
      rw [← h1, ← h2]
      rfl

theorem splitOnCh_append_ne {sep c : Char} (h : ¬ c = sep) (x : List Char) :
    ∃ pre last, splitOnCh sep x = pre ++ [last] ∧
      splitOnCh sep (x ++ [c]) = pre ++ [last ++ [c]] := by
  induction x with
  | nil =>
    obtain ⟨hd, tl, hs, hcons⟩ := splitOnCh_cons_ne [] h
    refine ⟨[], [], rfl, ?_⟩
    simp only [splitOnCh] at hs
    injection hs with h1 h2
    simpa [← h1, ← h2] using hcons
  | cons d x2 ih =>
    obtain ⟨pre, last, hp1, hp2⟩ := ih
    by_cases hd : d = sep
    · subst hd
      refine ⟨[] :: pre, last, ?_, ?_⟩
      · rw [splitOnCh_cons_sep, hp1]; rfl
      · rw [List.cons_append, splitOnCh_cons_sep, hp2]; rfl
    · cases pre with
      | nil =>
        obtain ⟨h1, t1, ha1, ha2⟩ := splitOnCh_cons_ne x2 hd
        obtain ⟨h3, t3, hb1, hb2⟩ := splitOnCh_cons_ne (x2 ++ [c]) hd
        rw [hp1] at ha1
        rw [hp2] at hb1
        injection ha1 with e1 e2
        injection hb1 with e3 e4
        refine ⟨[], d :: last, ?_, ?_⟩
        · rw [ha2, ← e1, ← e2]; rfl
        · rw [List.cons_append, hb2, ← e3, ← e4]; rfl
      | cons p0 ps =>
        obtain ⟨h1, t1, ha1, ha2⟩ := splitOnCh_cons_ne x2 hd
        obtain ⟨h3, t3, hb1, hb2⟩ := splitOnCh_cons_ne (x2 ++ [c]) hd
        rw [hp1] at ha1
        rw [hp2] at hb1
        rw [List.cons_append] at ha1 hb1
        injection ha1 with e1 e2
        injection hb1 with e3 e4
        refine ⟨(d :: p0) :: ps, last, ?_, ?_⟩
        · rw [ha2, ← e1, ← e2]; rfl
        · rw [List.cons_append, hb2, ← e3, ← e4]; rfl

theorem splitOnCh_reverse (sep : Char) (l : List Char) :
    splitOnCh sep l.reverse = ((splitOnCh sep l).map List.reverse).reverse := by
  induction l with
  | nil => rfl
  | cons c t ih =>
    by_cases h : c = sep
    · subst h
      rw [List.reverse_cons, splitOnCh_append_last, ih, splitOnCh_cons_sep]
      simp
    · obtain ⟨pre, last, hp1, hp2⟩ := splitOnCh_append_ne h t.reverse
      obtain ⟨hd, tl, hs, hcons⟩ := splitOnCh_cons_ne t h
      rw [hs] at ih
      rw [ih] at hp1
      have hpre : pre = (tl.map List.reverse).reverse ∧ last = hd.reverse := by
        have h0 := congrArg List.reverse hp1
        simp only [List.reverse_append, List.reverse_cons, List.map_cons,
          List.reverse_reverse, List.reverse_singleton, List.singleton_append] at h0
        injection h0 with e1 e2
        constructor
        · have h5 := congrArg List.reverse e2
          simpa using h5.symm
        · exact e1.symm
      rw [List.reverse_cons, hp2, hcons, hpre.1, hpre.2]
      simp

theorem headNotWs_some {l : List Char} {c : Char} (h : l.head? = some c) :
    headNotWs l = !isPySpace c := by
  simp [headNotWs, h]

theorem pyStripL_reverse (l : List Char) :
    pyStripL l.reverse = (pyStripL l).reverse := by
  by_cases hA : l.dropWhile isPySpace = []
  · have hall : l.all isPySpace = true := by
      have h2 := List.takeWhile_append_dropWhile isPySpace l
      rw [hA, List.append_nil] at h2
      rw [← h2]
      exact all_takeWhile_self l
    have hrev : l.reverse.all isPySpace = true := by
      rw [List.all_reverse]
      exact hall
    have h1 : l.reverse.dropWhile isPySpace = [] := dropWhile_eq_nil_of_all hrev
    simp [pyStripL, hA, h1]
  · obtain ⟨c, A2, hca⟩ : ∃ c A2, l.dropWhile isPySpace = c :: A2 := by
      cases hd : l.dropWhile isPySpace with
      | nil => exact absurd hd hA
      | cons c A2 => exact ⟨c, A2, rfl⟩
    have hc : isPySpace c = false := by
      have hh := headNotWs_dropWhile l
      rw [hca] at hh
      simpa [headNotWs] using hh
    have hwA : l.takeWhile isPySpace ++ l.dropWhile isPySpace = l :=
      List.takeWhile_append_dropWhile isPySpace l
    have hw : (l.takeWhile isPySpace).all isPySpace = true := all_takeWhile_self l
    have hBne : (l.dropWhile isPySpace).reverse.dropWhile isPySpace ≠ [] := by
      intro h0
      have hallrev : (l.dropWhile isPySpace).reverse.all isPySpace = true := by
        have h2 := List.takeWhile_append_dropWhile isPySpace
          (l.dropWhile isPySpace).reverse
        rw [h0, List.append_nil] at h2
        rw [← h2]
        exact all_takeWhile_self _
      have : isPySpace c = true := by
        have hmem : c ∈ (l.dropWhile isPySpace).reverse := by simp [hca]
        exact List.all_eq_true.mp hallrev c hmem
      rw [hc] at this
      exact Bool.false_ne_true this
    have hBempty : ((l.dropWhile isPySpace).reverse.dropWhile isPySpace).isEmpty = false := by
      simpa [List.isEmpty_iff] using hBne
    have h1 : l.reverse.dropWhile isPySpace
        = (l.dropWhile isPySpace).reverse.dropWhile isPySpace
          ++ (l.takeWhile isPySpace).reverse := by
      conv_lhs => rw [← hwA]
      rw [List.reverse_append, List.dropWhile_append, hBempty]
      simp
    have hwnil : (l.takeWhile isPySpace).dropWhile isPySpace = [] :=
      dropWhile_eq_nil_of_all hw
    have h2 : pyStripL l.reverse
        = (((l.dropWhile isPySpace).reverse.dropWhile isPySpace).reverse.dropWhile
            isPySpace).reverse := by
      rw [pyStripL, h1, List.reverse_append, List.reverse_reverse,
        List.dropWhile_append]
      simp [hwnil]
    have h3 : (pyStripL l).reverse = (l.dropWhile isPySpace).reverse.dropWhile isPySpace := by
      simp [pyStripL]
    have hlast : ((l.dropWhile isPySpace).reverse.dropWhile isPySpace).getLast? = some c := by
      obtain ⟨u, hu⟩ := @List.dropWhile_suffix Char (l.dropWhile isPySpace).reverse
        isPySpace
      rw [← List.getLast?_append_of_ne_nil u hBne, hu, List.getLast?_reverse, hca]
      rfl
    have h4 : headNotWs ((l.dropWhile isPySpace).reverse.dropWhile isPySpace).reverse
        = true := by
      rw [headNotWs_some (by rw [List.head?_reverse]; exact hlast), hc]
      rfl
    rw [h2, dropWhile_of_headNotWs h4, List.reverse_reverse, h3]

/-! ## Stage fixpoint lemmas: each invariant characterizes inputs the
corresponding normalization stage leaves unchanged -/

theorem collapseSpacesGo_fix : ∀ (l : List Char) (b : Bool),
    noBlankIssue b l = true → collapseSpacesGo b l = l := by
  intro l
  induction l with
  | nil => intro b _; rfl
  | cons c t ih =>
    intro b h
    simp only [noBlankIssue] at h
    by_cases hc : isBlankCh c = true
    · rw [if_pos hc] at h
      simp only [Bool.and_eq_true] at h
      obtain ⟨⟨hb, hsp⟩, ht⟩ := h
      have hb2 : b = false := by simpa using hb
      have hc2 : c = ' ' := by simpa using hsp
      subst hb2
      subst hc2
      simp [collapseSpacesGo, hc, ih true ht]
    · rw [if_neg hc] at h
      have hcf : isBlankCh c = false := by simpa using hc
      simp [collapseSpacesGo, hcf, ih false h]

theorem collapseNLGo_fix : ∀ (l : List Char) (n : Nat),
    noTripleNLGo n l = true → collapseNLGo n l = l := by
  intro l
  induction l with
  | nil => intro n _; rfl
  | cons c t ih =>
    intro n h
    simp only [noTripleNLGo] at h
    by_cases hc : c = '\n'
    · rw [if_pos hc] at h
      simp only [Bool.and_eq_true, decide_eq_true_eq] at h
      obtain ⟨hn, ht⟩ := h
      simp [collapseNLGo, hc, hn, ih (n + 1) ht]
    · rw [if_neg hc] at h
      simp [collapseNLGo, hc, ih 0 h]

theorem collapseNL_fix {l : List Char} (h : noTripleNL l = true) :
    collapseNL l = l := collapseNLGo_fix l 0 h

theorem removeHyphenGo_fix : ∀ (fuel : Nat) (l : List Char),
    noHyphenBreak l = true → removeHyphenGo fuel l = l := by
  intro fuel
  induction fuel with
  | zero => intro l _; rfl
  | succ f ih =>
    intro l h
    cases l with
    | nil => rfl
    | cons c t =>
      simp only [noHyphenBreak, Bool.and_eq_true] at h
      obtain ⟨h1, h2⟩ := h
      have hcond : (decide (c = '-') && (t.takeWhile isPySpace).contains '\n') = false := by
        rwa [Bool.not_eq_true'] at h1
      have hcond2 : ¬ ((decide (c = '-') && (t.takeWhile isPySpace).contains '\n') = true) := by
        rw [hcond]
        simp
      simp only [removeHyphenGo]
      rw [if_neg hcond2, ih t h2]

theorem removeHyphen_fix {l : List Char} (h : noHyphenBreak l = true) :
    removeHyphen l = l := removeHyphenGo_fix (l.length + 1) l h

theorem stripLines_fix {l : List Char} (h : linesStripped l = true) :
    stripLines l = l := by
  have h2 : ∀ x ∈ splitOnCh '\n' l, pyStripL x = x := by
    intro x hx
    have h3 := List.all_eq_true.mp h x hx
    simpa using h3
  have hmap : (splitOnCh '\n' l).map pyStripL = splitOnCh '\n' l := by
    calc (splitOnCh '\n' l).map pyStripL
        = (splitOnCh '\n' l).map id := List.map_congr_left (fun x hx => h2 x hx)
      _ = splitOnCh '\n' l := List.map_id _
  rw [stripLines, hmap, joinWithCh_splitOnCh]

theorem pyStripL_fix {l : List Char} (h : edgeClean l = true) : pyStripL l = l := by
  simp only [edgeClean, lastNotWs, Bool.and_eq_true] at h
  obtain ⟨h1, h2⟩ := h
  rw [pyStripL, dropWhile_of_headNotWs h1, dropWhile_of_headNotWs h2,
    List.reverse_reverse]

theorem noTripleNLGo_collapseNLGo : ∀ (l : List Char) (n : Nat),
    noTripleNLGo n (collapseNLGo n l) = true := by
  intro l
  induction l with
  | nil => intro n; rfl
  | cons c t ih =>
    intro n
    by_cases hc : c = '\n'
    · subst hc
      by_cases hn : n < 2
      · simp [collapseNLGo, hn, noTripleNLGo, ih (n + 1)]
      · simp [collapseNLGo, hn, ih n]
    · simp [collapseNLGo, hc, noTripleNLGo, ih 0]

theorem noTripleNL_collapseNL (l : List Char) :
    noTripleNL (collapseNL l) = true := noTripleNLGo_collapseNLGo l 0

theorem collapseNLGo_takeWhile (l : List Char) :
    (collapseNLGo 0 l).takeWhile (fun c => !(c == '\n'))
      = l.takeWhile (fun c => !(c == '\n')) := by
  induction l with
  | nil => rfl
  | cons c t ih =>
    by_cases hc : c = '\n'
    · subst hc
      simp [collapseNLGo, List.takeWhile_cons]
    · simp [collapseNLGo, hc, List.takeWhile_cons, ih]

/-! ## Establishment lemmas: each stage makes its own invariant true -/

theorem noBlankIssue_collapseSpacesGo : ∀ (l : List Char) (b : Bool),
    noBlankIssue b (collapseSpacesGo b l) = true := by
  intro l
  induction l with
  | nil => intro b; rfl
  | cons c t ih =>
    intro b
    by_cases hc : isBlankCh c = true
    · cases b with
      | true => simpa [collapseSpacesGo, hc] using ih true
      | false =>
        have hsp : isBlankCh ' ' = true := by decide
        simp [collapseSpacesGo, hc, noBlankIssue, hsp, ih true]
    · have hcf : isBlankCh c = false := by simpa using hc
      simp [collapseSpacesGo, hcf, noBlankIssue, ih false]

theorem edgeClean_pyStripL (l : List Char) : edgeClean (pyStripL l) = true := by
  simp only [edgeClean, lastNotWs, Bool.and_eq_true]
  constructor
  · have h1 := pyStripL_reverse l
    have h2 : pyStripL l = (pyStripL l.reverse).reverse := by
      rw [h1, List.reverse_reverse]
    rw [h2]
    simp only [pyStripL, List.reverse_reverse]
    exact headNotWs_dropWhile _
  · simp only [pyStripL, List.reverse_reverse]
    exact headNotWs_dropWhile _

theorem pyStripL_idem (l : List Char) : pyStripL (pyStripL l) = pyStripL l :=
  pyStripL_fix (edgeClean_pyStripL l)

theorem takeWhile_removeHyphenGo : ∀ (fuel : Nat) (t : List Char),
    (t.takeWhile isPySpace).contains '\n' = false →
    (removeHyphenGo fuel t).takeWhile isPySpace = t.takeWhile isPySpace := by
  intro fuel
  induction fuel with
  | zero => intro t _; rfl
  | succ f ih =>
    intro t h
    cases t with
    | nil => rfl
    | cons d t2 =>
      by_cases hd : isPySpace d = true
      · have htw : (d :: t2).takeWhile isPySpace = d :: t2.takeWhile isPySpace := by
          simp [List.takeWhile_cons, hd]
        rw [htw] at h
        simp only [List.contains_cons, Bool.or_eq_false_iff, beq_eq_false_iff_ne,
          ne_eq] at h
        have h45 : isPySpace '-' = false := by decide
        have hd45 : decide (d = '-') = false := by
          by_cases he : d = '-'
          · subst he; rw [h45] at hd; exact absurd hd (by simp)
          · simp [he]
        have hcond : (decide (d = '-') && ((t2.takeWhile isPySpace).contains '\n'))
            = false := by simp [hd45]
        have hcond2 : ¬ ((decide (d = '-')
            && ((t2.takeWhile isPySpace).contains '\n')) = true) := by
          rw [hcond]; simp
        simp only [removeHyphenGo]
        rw [if_neg hcond2, htw, List.takeWhile_cons]
        simp only [hd, if_true]
        rw [ih t2 (by simpa using h.2)]
      · have hdf : isPySpace d = false := by simpa using hd
        have htw : (d :: t2).takeWhile isPySpace = [] := by
          simp [List.takeWhile_cons, hdf]
        by_cases hcond : (decide (d = '-')
            && ((t2.takeWhile isPySpace).contains '\n')) = true
        · simp only [removeHyphenGo]
          rw [if_pos hcond, htw]
          rw [ih (t2.dropWhile isPySpace)
            (by rw [takeWhile_dropWhile_ws]; rfl)]
          rw [takeWhile_dropWhile_ws]
        · simp only [removeHyphenGo]
          rw [if_neg hcond, htw, List.takeWhile_cons]
          simp [hdf]

theorem noHyphenBreak_removeHyphenGo : ∀ (fuel : Nat) (l : List Char),
    l.length < fuel → noHyphenBreak (removeHyphenGo fuel l) = true := by
  intro fuel
  induction fuel with
  | zero => intro l h; exact absurd h (Nat.not_lt_zero _)
  | succ f ih =>
    intro l hlen
    cases l with
    | nil => rfl
    | cons c t =>
      have hlt : t.length < f := by
        simp only [List.length_cons] at hlen
        omega
      by_cases hcond : (decide (c = '-') && ((t.takeWhile isPySpace).contains '\n'))
          = true
      · simp only [removeHyphenGo]
        rw [if_pos hcond]
        apply ih
        have h1 : (t.dropWhile isPySpace).length ≤ t.length :=
          (List.dropWhile_sublist _).length_le
        exact Nat.lt_of_le_of_lt h1 hlt
      · have hcf : (decide (c = '-') && ((t.takeWhile isPySpace).contains '\n'))
            = false := by
          cases hx : (decide (c = '-') && ((t.takeWhile isPySpace).contains '\n'))
          · rfl
          · exact absurd hx hcond
        simp only [removeHyphenGo]
        rw [if_neg hcond]
        simp only [noHyphenBreak, Bool.and_eq_true]
        refine ⟨?_, ih t hlt⟩
        by_cases hc : c = '-'
        · subst hc
          have h3 : (t.takeWhile isPySpace).contains '\n' = false := by
            simpa using hcf
          rw [takeWhile_removeHyphenGo f t h3, h3]
          simp
        · simp [hc]

theorem noHyphenBreak_removeHyphen (l : List Char) :
    noHyphenBreak (removeHyphen l) = true :=
  noHyphenBreak_removeHyphenGo (l.length + 1) l (Nat.lt_succ_self _)

theorem mem_pyStripL {c : Char} {l : List Char} (h : c ∈ pyStripL l) : c ∈ l := by
  simp only [pyStripL, List.mem_reverse] at h
  have h2 : c ∈ (l.dropWhile isPySpace).reverse := (List.dropWhile_sublist _).mem h
  rw [List.mem_reverse] at h2
  exact (List.dropWhile_sublist _).mem h2

theorem linesStripped_stripLines (l : List Char) :
    linesStripped (stripLines l) = true := by
  rw [linesStripped, stripLines]
  have hsegfree : ∀ s ∈ (splitOnCh '\n' l).map pyStripL, ∀ c ∈ s, ¬ c = '\n' := by
    intro s hs c hc
    obtain ⟨s0, hs0, rfl⟩ := List.mem_map.mp hs
    exact mem_splitOnCh_sep_free s0 hs0 c (mem_pyStripL hc)
  rw [splitOnCh_joinWithCh
    (by simpa using splitOnCh_ne_nil '\n' l) hsegfree]
  simp only [List.all_eq_true]
  intro x hx
  obtain ⟨s0, hs0, rfl⟩ := List.mem_map.mp hx
  simp [pyStripL_idem]

/-! ## Preservation of the invariants through newline collapsing -/

theorem contains_takeWhile_collapseNLGo : ∀ (l : List Char) (n : Nat),
    ((collapseNLGo n l).takeWhile isPySpace).contains '\n' = true →
    (l.takeWhile isPySpace).contains '\n' = true := by
  intro l
  induction l with
  | nil => intro n h; exact absurd h (by simp [collapseNLGo])
  | cons c t ih =>
    intro n h
    by_cases hc : c = '\n'
    · subst hc
      have hws : isPySpace '\n' = true := by decide
      simp [List.takeWhile_cons, hws, List.contains_cons]
    · have hout : collapseNLGo n (c :: t) = c :: collapseNLGo 0 t := by
        simp [collapseNLGo, hc]
      rw [hout] at h
      by_cases hws : isPySpace c = true
      · rw [List.takeWhile_cons] at h
        simp only [hws, if_true, List.contains_cons] at h
        have hcn : (('\n' : Char) == c) = false :=
          beq_eq_false_iff_ne.mpr (fun he => hc he.symm)
        rw [hcn, Bool.false_or] at h
        have h2 := ih 0 h
        rw [List.takeWhile_cons]
        simp only [hws, if_true, List.contains_cons]
        rw [h2]
        simp
      · have hwf : isPySpace c = false := by simpa using hws
        rw [List.takeWhile_cons] at h
        simp [hwf] at h

theorem noHyphenBreak_collapseNLGo : ∀ (l : List Char) (n : Nat),
    noHyphenBreak l = true → noHyphenBreak (collapseNLGo n l) = true := by
  intro l
  induction l with
  | nil => intro n _; rfl
  | cons c t ih =>
    intro n h
    simp only [noHyphenBreak, Bool.and_eq_true] at h
    obtain ⟨h1, h2⟩ := h
    by_cases hc : c = '\n'
    · subst hc
      by_cases hn : n < 2
      · have hout : collapseNLGo n ('\n' :: t) = '\n' :: collapseNLGo (n + 1) t := by
          simp [collapseNLGo, hn]
        rw [hout]
        simp only [noHyphenBreak, Bool.and_eq_true]
        have hne : decide ('\n' = '-') = false := by decide
        exact ⟨by simp [hne], ih (n + 1) h2⟩
      · have hout : collapseNLGo n ('\n' :: t) = collapseNLGo n t := by
          simp [collapseNLGo, hn]
        rw [hout]
        exact ih n h2
    · have hout : collapseNLGo n (c :: t) = c :: collapseNLGo 0 t := by
        simp [collapseNLGo, hc]
      rw [hout]
      simp only [noHyphenBreak, Bool.and_eq_true]
      refine ⟨?_, ih 0 h2⟩
      by_cases hdash : c = '-'
      · subst hdash
        have h3 : (t.takeWhile isPySpace).contains '\n' = false := by
          simpa using h1
        have h4 : ((collapseNLGo 0 t).takeWhile isPySpace).contains '\n' = false := by
          cases hx : ((collapseNLGo 0 t).takeWhile isPySpace).contains '\n'
          · rfl
          · rw [contains_takeWhile_collapseNLGo t 0 hx] at h3
            exact absurd h3 (by simp)
        have h5 : '\n' ∉ (collapseNLGo 0 t).takeWhile isPySpace := by simpa using h4
        simp [h5]
      · simp [hdash]

theorem headNotWs_congr {a b : List Char} (h : a.head? = b.head?) :
    headNotWs a = headNotWs b := by
  simp only [headNotWs, h]

theorem lastNotWs_cons (c : Char) {l : List Char} (h : l ≠ []) :
    lastNotWs (c :: l) = lastNotWs l := by
  apply headNotWs_congr
  rw [List.reverse_cons]
  cases hx : l.reverse with
  | nil => exact absurd (by simpa using hx) h
  | cons x xs => simp [hx]

theorem collapseNLGo_ne_nil : ∀ {l : List Char}, l ≠ [] → lastNotWs l = true →
    ∀ n, collapseNLGo n l ≠ [] := by
  intro l
  induction l with
  | nil => intro h _ _; exact absurd rfl h
  | cons c t ih =>
    intro _ hl n
    cases t with
    | nil =>
      have hc : isPySpace c = false := by simpa [lastNotWs, headNotWs] using hl
      have hwsnl : isPySpace '\n' = true := by decide
      have hcn : ¬ c = '\n' := by
        intro he
        rw [he, hwsnl] at hc
        exact absurd hc (by simp)
      simp [collapseNLGo, hcn]
    | cons d t2 =>
      have hl2 : lastNotWs (d :: t2) = true := by
        rwa [lastNotWs_cons c (by simp)] at hl
      by_cases hc : c = '\n'
      · subst hc
        by_cases hn : n < 2
        · simp [collapseNLGo, hn]
        · have hout : collapseNLGo n ('\n' :: d :: t2) = collapseNLGo n (d :: t2) := by
            simp [collapseNLGo, hn]
          rw [hout]
          exact ih (by simp) hl2 n
      · simp [collapseNLGo, hc]

theorem lastNotWs_collapseNLGo : ∀ (l : List Char) (n : Nat),
    lastNotWs l = true → lastNotWs (collapseNLGo n l) = true := by
  intro l
  induction l with
  | nil => intro n _; rfl
  | cons c t ih =>
    intro n hl
    cases t with
    | nil =>
      have hc : isPySpace c = false := by simpa [lastNotWs, headNotWs] using hl
      have hwsnl : isPySpace '\n' = true := by decide
      have hcn : ¬ c = '\n' := by
        intro he
        rw [he, hwsnl] at hc
        exact absurd hc (by simp)
      have hout : collapseNLGo n [c] = [c] := by simp [collapseNLGo, hcn]
      rw [hout]
      exact hl
    | cons d t2 =>
      have hl2 : lastNotWs (d :: t2) = true := by
        rwa [lastNotWs_cons c (by simp)] at hl
      by_cases hc : c = '\n'
      · subst hc
        by_cases hn : n < 2
        · have hout : collapseNLGo n ('\n' :: d :: t2)
              = '\n' :: collapseNLGo (n + 1) (d :: t2) := by
            simp [collapseNLGo, hn]
          rw [hout]
          have hne := collapseNLGo_ne_nil (show (d :: t2) ≠ [] by simp) hl2 (n + 1)
          rw [lastNotWs_cons '\n' hne]
          exact ih (n + 1) hl2
        · have hout : collapseNLGo n ('\n' :: d :: t2) = collapseNLGo n (d :: t2) := by
            simp [collapseNLGo, hn]
          rw [hout]
          exact ih n hl2
      · have hout : collapseNLGo n (c :: d :: t2) = c :: collapseNLGo 0 (d :: t2) := by
          simp [collapseNLGo, hc]
        rw [hout]
        have hne := collapseNLGo_ne_nil (show (d :: t2) ≠ [] by simp) hl2 0
        rw [lastNotWs_cons c hne]
        exact ih 0 hl2

theorem edgeClean_collapseNL {l : List Char} (h : edgeClean l = true) :
    edgeClean (collapseNL l) = true := by
  simp only [edgeClean, Bool.and_eq_true] at h ⊢
  obtain ⟨h1, h2⟩ := h
  refine ⟨?_, lastNotWs_collapseNLGo l 0 h2⟩
  cases l with
  | nil => rfl
  | cons c t =>
    have hc : isPySpace c = false := by simpa [headNotWs] using h1
    have hwsnl : isPySpace '\n' = true := by decide
    have hcn : ¬ c = '\n' := by
      intro he
      rw [he, hwsnl] at hc
      exact absurd hc (by simp)
    have hout : collapseNL (c :: t) = c :: collapseNLGo 0 t := by
      simp [collapseNL, collapseNLGo, hcn]
    rw [hout]
    simp [headNotWs, hc]

/-! ## The blank-run invariant: closure properties -/

theorem isPySpace_of_isBlankCh {c : Char} (h : isBlankCh c = true) :
    isPySpace c = true := by
  simp only [isBlankCh, Bool.or_eq_true, decide_eq_true_eq] at h
  rcases h with h | h <;> subst h <;> decide

theorem noBlankIssue_notBlank_head {b : Bool} {c : Char} {t : List Char}
    (hc : isBlankCh c = false) :
    noBlankIssue b (c :: t) = noBlankIssue false t := by
  simp [noBlankIssue, hc]

theorem noBlankIssue_false_of_true : ∀ {l : List Char},
    noBlankIssue true l = true → noBlankIssue false l = true := by
  intro l h
  cases l with
  | nil => rfl
  | cons c t =>
    by_cases hb : isBlankCh c = true
    · simp [noBlankIssue, hb] at h
    · have hbf : isBlankCh c = false := by simpa using hb
      rw [noBlankIssue_notBlank_head hbf] at h
      rw [noBlankIssue_notBlank_head hbf]
      exact h

theorem noBlankIssue_append_left : ∀ (x y : List Char) (b : Bool),
    noBlankIssue b (x ++ y) = true → noBlankIssue b x = true := by
  intro x
  induction x with
  | nil => intro y b _; rfl
  | cons c t ih =>
    intro y b h
    by_cases hc : isBlankCh c = true
    · rw [List.cons_append] at h
      simp only [noBlankIssue, if_pos hc, Bool.and_eq_true] at h ⊢
      exact ⟨h.1, ih y true h.2⟩
    · have hcf : isBlankCh c = false := by simpa using hc
      rw [List.cons_append, noBlankIssue_notBlank_head hcf] at h
      rw [noBlankIssue_notBlank_head hcf]
      exact ih y false h

theorem noBlankIssue_dropWhile : ∀ {l : List Char},
    noBlankIssue false l = true →
    noBlankIssue false (l.dropWhile isPySpace) = true := by
  intro l
  induction l with
  | nil => intro h; exact h
  | cons c t ih =>
    intro h
    by_cases hws : isPySpace c = true
    · rw [List.dropWhile_cons]
      simp only [hws, if_true]
      apply ih
      by_cases hb : isBlankCh c = true
      · have h2 : noBlankIssue true t = true := by
          simp only [noBlankIssue, if_pos hb, Bool.and_eq_true] at h
          exact h.2
        exact noBlankIssue_false_of_true h2
      · have hbf : isBlankCh c = false := by simpa using hb
        rwa [noBlankIssue_notBlank_head hbf] at h
    · have hwf : isPySpace c = false := by simpa using hws
      rw [List.dropWhile_cons]
      simp only [hwf]
      simpa using h

theorem dropTrailWs_decomp (x : List Char) :
    ∃ w, x = dropTrailWs x ++ w ∧ w.all isPySpace = true := by
  refine ⟨(x.reverse.takeWhile isPySpace).reverse, ?_, ?_⟩
  · have h1 := List.takeWhile_append_dropWhile isPySpace x.reverse
    have h2 := congrArg List.reverse h1
    rw [List.reverse_append, List.reverse_reverse] at h2
    exact h2.symm
  · rw [List.all_reverse]
    exact all_takeWhile_self _

theorem noBlankIssue_pyStripL {l : List Char} (h : noBlankIssue false l = true) :
    noBlankIssue false (pyStripL l) = true := by
  have h1 : noBlankIssue false (l.dropWhile isPySpace) = true :=
    noBlankIssue_dropWhile h
  obtain ⟨w, hw, _⟩ := dropTrailWs_decomp (l.dropWhile isPySpace)
  rw [hw] at h1
  exact noBlankIssue_append_left _ w false h1

theorem noBlankIssue_append_nl : ∀ (s z : List Char) (b : Bool),
    noBlankIssue b s = true → noBlankIssue false z = true →
    noBlankIssue b (s ++ '\n' :: z) = true := by
  intro s
  induction s with
  | nil =>
    intro z b _ hz
    have hnb : isBlankCh '\n' = false := by decide
    rw [List.nil_append, noBlankIssue_notBlank_head hnb]
    exact hz
  | cons c t ih =>
    intro z b hs hz
    rw [List.cons_append]
    by_cases hb : isBlankCh c = true
    · simp only [noBlankIssue, if_pos hb, Bool.and_eq_true] at hs ⊢
      exact ⟨hs.1, ih z true hs.2 hz⟩
    · have hbf : isBlankCh c = false := by simpa using hb
      rw [noBlankIssue_notBlank_head hbf] at hs
      rw [noBlankIssue_notBlank_head hbf]
      exact ih z false hs hz

theorem noBlankIssue_joinWithCh : ∀ (segs : List (List Char)),
    (∀ s ∈ segs, noBlankIssue false s = true) →
    noBlankIssue false (joinWithCh '\n' segs) = true := by
  intro segs
  induction segs with
  | nil => intro _; rfl
  | cons s rest ih =>
    intro h
    cases rest with
    | nil => simpa [joinWithCh] using h s (by simp)
    | cons s2 r2 =>
      have hj : joinWithCh '\n' (s :: s2 :: r2)
          = s ++ '\n' :: joinWithCh '\n' (s2 :: r2) := rfl
      rw [hj]
      exact noBlankIssue_append_nl s _ false (h s (by simp))
        (ih (fun x hx => h x (by simp [hx])))

theorem noBlankIssue_splitOnCh : ∀ (t : List Char) (b : Bool),
    noBlankIssue b t = true →
    (∀ x ∈ (splitOnCh '\n' t).tail, noBlankIssue false x = true) ∧
    noBlankIssue b ((splitOnCh '\n' t).headD []) := by
  intro t
  induction t with
  | nil =>
    intro b _
    exact ⟨by simp [splitOnCh], by rfl⟩
  | cons c t2 ih =>
    intro b h
    by_cases hc : c = '\n'
    · subst hc
      rw [splitOnCh_cons_sep]
      have hnb : isBlankCh '\n' = false := by decide
      rw [noBlankIssue_notBlank_head hnb] at h
      constructor
      · intro x hx
        simp only [List.tail_cons] at hx
        cases hs : splitOnCh '\n' t2 with
        | nil => exact absurd hs (splitOnCh_ne_nil _ _)
        | cons h0 tl =>
          rw [hs] at hx
          rcases List.mem_cons.mp hx with h1 | h1
          · subst h1
            have hh := (ih false h).2
            rw [hs] at hh
            simpa using hh
          · exact (ih false h).1 x (by rw [hs]; simpa using h1)
      · rfl
    · obtain ⟨hd, tl, hs, hscons⟩ := splitOnCh_cons_ne t2 hc
      rw [hscons]
      by_cases hb : isBlankCh c = true
      · simp only [noBlankIssue, if_pos hb, Bool.and_eq_true] at h
        obtain ⟨⟨hbb, hcsp⟩, ht⟩ := h
        have ih2 := ih true ht
        rw [hs] at ih2
        constructor
        · intro x hx
          simp only [List.tail_cons] at hx
          exact ih2.1 x (by simpa using hx)
        · simp only [List.headD_cons] at ih2 ⊢
          simp only [noBlankIssue, if_pos hb, Bool.and_eq_true]
          exact ⟨⟨hbb, hcsp⟩, ih2.2⟩
      · have hbf : isBlankCh c = false := by simpa using hb
        rw [noBlankIssue_notBlank_head hbf] at h
        have ih2 := ih false h
        rw [hs] at ih2
        constructor
        · intro x hx
          simp only [List.tail_cons] at hx
          exact ih2.1 x (by simpa using hx)
        · simp only [List.headD_cons] at ih2 ⊢
          rw [noBlankIssue_notBlank_head hbf]
          exact ih2.2

theorem noBlankIssue_stripLines {l : List Char} (h : noBlankIssue false l = true) :
    noBlankIssue false (stripLines l) = true := by
  rw [stripLines]
  apply noBlankIssue_joinWithCh
  intro s hs
  obtain ⟨s0, hs0, rfl⟩ := List.mem_map.mp hs
  apply noBlankIssue_pyStripL
  cases hsp : splitOnCh '\n' l with
  | nil => exact absurd hsp (splitOnCh_ne_nil _ _)
  | cons h0 tl =>
    rw [hsp] at hs0
    rcases List.mem_cons.mp hs0 with h1 | h1
    · subst h1
      have hh := (noBlankIssue_splitOnCh l false h).2
      rw [hsp] at hh
      simpa using hh
    · exact (noBlankIssue_splitOnCh l false h).1 s0 (by rw [hsp]; simpa using h1)

/-! ## Preservation of stripped lines through newline collapsing -/

theorem linesStripped_split {l h0 : List Char} {tl : List (List Char)}
    (hs : splitOnCh '\n' l = h0 :: tl) :
    linesStripped l
      = ((pyStripL h0 == h0) && tl.all (fun x => pyStripL x == x)) := by
  rw [linesStripped, hs, List.all_cons]

theorem tailsStripped_split {l h0 : List Char} {tl : List (List Char)}
    (hs : splitOnCh '\n' l = h0 :: tl) :
    tailsStripped l = tl.all (fun x => pyStripL x == x) := by
  rw [tailsStripped, hs]
  rfl

theorem tailsStripped_of_linesStripped {l : List Char}
    (h : linesStripped l = true) : tailsStripped l = true := by
  cases hs : splitOnCh '\n' l with
  | nil => exact absurd hs (splitOnCh_ne_nil _ _)
  | cons h0 tl =>
    rw [tailsStripped_split hs]
    rw [linesStripped_split hs, Bool.and_eq_true] at h
    exact h.2

theorem linesStripped_collapseNLGo : ∀ (l : List Char),
    (linesStripped l = true → ∀ n, linesStripped (collapseNLGo n l) = true) ∧
    (tailsStripped l = true → ∀ n, tailsStripped (collapseNLGo n l) = true) := by
  intro l
  induction l with
  | nil => exact ⟨fun h _ => h, fun h _ => h⟩
  | cons c t ih =>
    constructor
    · intro h n
      by_cases hc : c = '\n'
      · subst hc
        rw [linesStripped_split (splitOnCh_cons_sep '\n' t), Bool.and_eq_true] at h
        have hlt : linesStripped t = true := h.2
        by_cases hn : n < 2
        · have hout : collapseNLGo n ('\n' :: t)
              = '\n' :: collapseNLGo (n + 1) t := by
            simp [collapseNLGo, hn]
          rw [hout,
            linesStripped_split (splitOnCh_cons_sep '\n' (collapseNLGo (n + 1) t)),
            Bool.and_eq_true]
          exact ⟨by decide, ih.1 hlt (n + 1)⟩
        · have hout : collapseNLGo n ('\n' :: t) = collapseNLGo n t := by
            simp [collapseNLGo, hn]
          rw [hout]
          exact ih.1 hlt n
      · obtain ⟨hd, tl, hsr, hscons⟩ := splitOnCh_cons_ne t hc
        rw [linesStripped_split hscons, Bool.and_eq_true] at h
        obtain ⟨hfix, hall⟩ := h
        have hout : collapseNLGo n (c :: t) = c :: collapseNLGo 0 t := by
          simp [collapseNLGo, hc]
        rw [hout]
        obtain ⟨tlo, hso⟩ := splitOnCh_head '\n' (collapseNLGo 0 t)
        rw [collapseNLGo_takeWhile] at hso
        obtain ⟨tl2, hst⟩ := splitOnCh_head '\n' t
        rw [hsr] at hst
        injection hst with he1 he2
        obtain ⟨hd3, tl3, hs3, hs3c⟩ := splitOnCh_cons_ne (collapseNLGo 0 t) hc
        rw [hso] at hs3
        injection hs3 with he3 he4
        rw [linesStripped_split hs3c, Bool.and_eq_true]
        constructor
        · rw [← he3, ← he1]
          exact hfix
        · have hQ := ih.2 (by rw [tailsStripped_split hsr]; exact hall) 0
          rw [tailsStripped_split hso] at hQ
          rw [← he4]
          exact hQ
    · intro h n
      by_cases hc : c = '\n'
      · subst hc
        rw [tailsStripped_split (splitOnCh_cons_sep '\n' t)] at h
        have hlt : linesStripped t = true := h
        by_cases hn : n < 2
        · have hout : collapseNLGo n ('\n' :: t)
              = '\n' :: collapseNLGo (n + 1) t := by
            simp [collapseNLGo, hn]
          rw [hout,
            tailsStripped_split (splitOnCh_cons_sep '\n' (collapseNLGo (n + 1) t))]
          exact ih.1 hlt (n + 1)
        · have hout : collapseNLGo n ('\n' :: t) = collapseNLGo n t := by
            simp [collapseNLGo, hn]
          rw [hout]
          exact ih.2 (tailsStripped_of_linesStripped hlt) n
      · obtain ⟨hd, tl, hsr, hscons⟩ := splitOnCh_cons_ne t hc
        rw [tailsStripped_split hscons] at h
        have hout : collapseNLGo n (c :: t) = c :: collapseNLGo 0 t := by
          simp [collapseNLGo, hc]
        rw [hout]
        obtain ⟨hd3, tl3, hs3, hs3c⟩ := splitOnCh_cons_ne (collapseNLGo 0 t) hc
        rw [tailsStripped_split hs3c]
        have hQ := ih.2 (by rw [tailsStripped_split hsr]; exact h) 0
        rw [tailsStripped_split hs3] at hQ
        exact hQ

theorem linesStripped_collapseNL {l : List Char} (h : linesStripped l = true) :
    linesStripped (collapseNL l) = true := (linesStripped_collapseNLGo l).1 h 0

/-! ## Preservation through hyphen-break removal -/

theorem noBlankIssue_state {b : Bool} {l : List Char} (hh : headNotWs l = true)
    (h : noBlankIssue false l = true) : noBlankIssue b l = true := by
  cases l with
  | nil => rfl
  | cons c t =>
    have hws : isPySpace c = false := by simpa [headNotWs] using hh
    have hbf : isBlankCh c = false := by
      cases hx : isBlankCh c
      · rfl
      · rw [isPySpace_of_isBlankCh hx] at hws
        exact absurd hws (by simp)
    rw [noBlankIssue_notBlank_head hbf] at h
    rw [noBlankIssue_notBlank_head hbf]
    exact h

theorem headNotWs_removeHyphenGo : ∀ (fuel : Nat) (l : List Char),
    headNotWs l = true → headNotWs (removeHyphenGo fuel l) = true := by
  intro fuel
  induction fuel with
  | zero => intro l h; exact h
  | succ f ih =>
    intro l h
    cases l with
    | nil => exact h
    | cons c t =>
      by_cases hcond : (decide (c = '-') && ((t.takeWhile isPySpace).contains '\n'))
          = true
      · simp only [removeHyphenGo]
        rw [if_pos hcond]
        exact ih _ (headNotWs_dropWhile t)
      · simp only [removeHyphenGo]
        rw [if_neg hcond]
        rw [headNotWs_congr
          (show (c :: removeHyphenGo f t).head? = (c :: t).head? by rfl)]
        exact h

theorem noBlankIssue_removeHyphenGo : ∀ (fuel : Nat) (l : List Char) (b : Bool),
    noBlankIssue b l = true → noBlankIssue b (removeHyphenGo fuel l) = true := by
  intro fuel
  induction fuel with
  | zero => intro l b h; exact h
  | succ f ih =>
    intro l b h
    cases l with
    | nil => exact h
    | cons c t =>
      by_cases hcond : (decide (c = '-') && ((t.takeWhile isPySpace).contains '\n'))
          = true
      · simp only [removeHyphenGo]
        rw [if_pos hcond]
        have hc2 : c = '-' := by
          have h3 := hcond
          simp only [Bool.and_eq_true, decide_eq_true_eq] at h3
          exact h3.1
        have hcd : isBlankCh c = false := by rw [hc2]; decide
        rw [noBlankIssue_notBlank_head hcd] at h
        have h1 : noBlankIssue false (t.dropWhile isPySpace) = true :=
          noBlankIssue_dropWhile h
        have h2 := ih (t.dropWhile isPySpace) false h1
        exact noBlankIssue_state
          (headNotWs_removeHyphenGo f _ (headNotWs_dropWhile t)) h2
      · simp only [removeHyphenGo]
        rw [if_neg hcond]
        by_cases hb : isBlankCh c = true
        · simp only [noBlankIssue, if_pos hb, Bool.and_eq_true] at h ⊢
          exact ⟨h.1, ih t true h.2⟩
        · have hbf : isBlankCh c = false := by simpa using hb
          rw [noBlankIssue_notBlank_head hbf] at h
          rw [noBlankIssue_notBlank_head hbf]
          exact ih t false h

/-! ## Closure of the hyphen-break invariant under trimming and joining -/

theorem takeWhile_eq_self_of_all {p : Char → Bool} {l : List Char}
    (h : l.all p = true) : l.takeWhile p = l := by
  rw [List.takeWhile_eq_self_iff]
  intro a ha
  exact List.all_eq_true.mp h a ha

theorem contains_takeWhile_append {x : List Char} (y : List Char)
    (h : (x.takeWhile isPySpace).contains '\n' = true) :
    ((x ++ y).takeWhile isPySpace).contains '\n' = true := by
  rw [List.takeWhile_append]
  by_cases hlen : (x.takeWhile isPySpace).length = x.length
  · rw [if_pos hlen]
    have hc : '\n' ∈ x.takeWhile isPySpace := by simpa using h
    have hx : '\n' ∈ x := (List.takeWhile_sublist _).mem hc
    simp [List.mem_append, hx]
  · rw [if_neg hlen]
    exact h

theorem noHyphenBreak_append_left : ∀ (x y : List Char),
    noHyphenBreak (x ++ y) = true → noHyphenBreak x = true := by
  intro x
  induction x with
  | nil => intro y _; rfl
  | cons c t ih =>
    intro y h
    rw [List.cons_append] at h
    simp only [noHyphenBreak, Bool.and_eq_true] at h ⊢
    obtain ⟨h1, h2⟩ := h
    refine ⟨?_, ih y h2⟩
    by_cases hc : c = '-'
    · subst hc
      cases hx : (t.takeWhile isPySpace).contains '\n'
      · simp [hx]
      · exfalso
        have h4 := contains_takeWhile_append y hx
        have h5 : '\n' ∈ (t ++ y).takeWhile isPySpace := by simpa using h4
        have h6 : '\n' ∉ (t ++ y).takeWhile isPySpace := by simpa using h1
        exact h6 h5
    · simp [hc]

theorem noHyphenBreak_append_right : ∀ (x y : List Char),
    noHyphenBreak (x ++ y) = true → noHyphenBreak y = true := by
  intro x
  induction x with
  | nil => intro y h; simpa using h
  | cons c t ih =>
    intro y h
    rw [List.cons_append] at h
    simp only [noHyphenBreak, Bool.and_eq_true] at h
    exact ih y h.2

theorem noHyphenBreak_pyStripL {l : List Char} (h : noHyphenBreak l = true) :
    noHyphenBreak (pyStripL l) = true := by
  have h1 : noHyphenBreak (l.dropWhile isPySpace) = true := by
    have hd := List.takeWhile_append_dropWhile isPySpace l
    have h2 : noHyphenBreak (l.takeWhile isPySpace ++ l.dropWhile isPySpace)
        = true := by rw [hd]; exact h
    exact noHyphenBreak_append_right _ _ h2
  obtain ⟨w, hw, _⟩ := dropTrailWs_decomp (l.dropWhile isPySpace)
  rw [hw] at h1
  exact noHyphenBreak_append_left _ w h1

theorem noHyphenTail_append_left : ∀ (p w : List Char),
    w.all isPySpace = true → noHyphenTail (p ++ w) = true →
    noHyphenTail p = true := by
  intro p
  induction p with
  | nil => intro w _ _; rfl
  | cons c t ih =>
    intro w hw h
    rw [List.cons_append] at h
    simp only [noHyphenTail, Bool.and_eq_true] at h ⊢
    obtain ⟨h1, h2⟩ := h
    refine ⟨?_, ih w hw h2⟩
    by_cases hc : c = '-'
    · subst hc
      cases hx : t.all isPySpace
      · simp [hx]
      · exfalso
        have hall : (t ++ w).all isPySpace = true := by
          rw [List.all_append, hx, hw]
          rfl
        simp [hall] at h1
    · simp [hc]

theorem noHyphenTail_append_right : ∀ (x y : List Char),
    noHyphenTail (x ++ y) = true → noHyphenTail y = true := by
  intro x
  induction x with
  | nil => intro y h; simpa using h
  | cons c t ih =>
    intro y h
    rw [List.cons_append] at h
    simp only [noHyphenTail, Bool.and_eq_true] at h
    exact ih y h.2

theorem noHyphenTail_pyStripL {l : List Char} (h : noHyphenTail l = true) :
    noHyphenTail (pyStripL l) = true := by
  have h1 : noHyphenTail (l.dropWhile isPySpace) = true := by
    have hd := List.takeWhile_append_dropWhile isPySpace l
    have h2 : noHyphenTail (l.takeWhile isPySpace ++ l.dropWhile isPySpace)
        = true := by rw [hd]; exact h
    exact noHyphenTail_append_right _ _ h2
  obtain ⟨w, hw, hwall⟩ := dropTrailWs_decomp (l.dropWhile isPySpace)
  rw [hw] at h1
  exact noHyphenTail_append_left _ w hwall h1

theorem noHyphenTail_of_break : ∀ {l : List Char} {r : List Char},
    (∀ c ∈ l, ¬ c = '\n') → noHyphenBreak (l ++ '\n' :: r) = true →
    noHyphenTail l = true := by
  intro l
  induction l with
  | nil => intro r _ _; rfl
  | cons c t ih =>
    intro r hfree h
    rw [List.cons_append] at h
    simp only [noHyphenBreak, Bool.and_eq_true] at h
    obtain ⟨h1, h2⟩ := h
    simp only [noHyphenTail, Bool.and_eq_true]
    refine ⟨?_, ih (fun x hx => hfree x (by simp [hx])) h2⟩
    by_cases hc : c = '-'
    · subst hc
      cases hx : t.all isPySpace
      · simp [hx]
      · exfalso
        have htw : t.takeWhile isPySpace = t := takeWhile_eq_self_of_all hx
        have htk : ((t ++ '\n' :: r).takeWhile isPySpace).contains '\n' = true := by
          rw [List.takeWhile_append, htw]
          have hws : isPySpace '\n' = true := by decide
          simp [List.takeWhile_cons, hws]
        have h5 : '\n' ∈ (t ++ '\n' :: r).takeWhile isPySpace := by simpa using htk
        have h6 : '\n' ∉ (t ++ '\n' :: r).takeWhile isPySpace := by simpa using h1
        exact h6 h5
    · simp [hc]

theorem noHyphenBreak_of_nlfree : ∀ {s : List Char},
    (∀ c ∈ s, ¬ c = '\n') → noHyphenBreak s = true := by
  intro s
  induction s with
  | nil => intro _; rfl
  | cons c t ih =>
    intro h
    simp only [noHyphenBreak, Bool.and_eq_true]
    refine ⟨?_, ih (fun x hx => h x (by simp [hx]))⟩
    have hnin : '\n' ∉ t := by
      intro hm
      exact h '\n' (by simp [hm]) rfl
    have h5 : '\n' ∉ t.takeWhile isPySpace :=
      fun hm => hnin ((List.takeWhile_sublist _).mem hm)
    simp [h5]

theorem noHyphenBreak_line_append : ∀ {s : List Char} (z : List Char),
    (∀ c ∈ s, ¬ c = '\n') → noHyphenTail s = true → noHyphenBreak z = true →
    noHyphenBreak (s ++ '\n' :: z) = true := by
  intro s
  induction s with
  | nil =>
    intro z _ _ hz
    rw [List.nil_append]
    simp only [noHyphenBreak, Bool.and_eq_true]
    have hne : decide ('\n' = '-') = false := by decide
    exact ⟨by simp [hne], hz⟩
  | cons c t ih =>
    intro z hfree hht hz
    rw [List.cons_append]
    simp only [noHyphenTail, Bool.and_eq_true] at hht
    obtain ⟨h1, h2⟩ := hht
    simp only [noHyphenBreak, Bool.and_eq_true]
    refine ⟨?_, ih z (fun x hx => hfree x (by simp [hx])) h2 hz⟩
    by_cases hc : c = '-'
    · subst hc
      have hta : t.all isPySpace = false := by simpa using h1
      have hlen : ¬ (t.takeWhile isPySpace).length = t.length := by
        intro he
        have heq : t.takeWhile isPySpace = t :=
          (List.takeWhile_sublist _).eq_of_length he
        have hall : (t.takeWhile isPySpace).all isPySpace = true :=
          all_takeWhile_self t
        rw [heq] at hall
        rw [hall] at hta
        exact absurd hta (by simp)
      have htk : (t ++ '\n' :: z).takeWhile isPySpace = t.takeWhile isPySpace := by
        rw [List.takeWhile_append, if_neg hlen]
      have hnin : '\n' ∉ t := fun hm => hfree '\n' (by simp [hm]) rfl
      have h5 : '\n' ∉ t.takeWhile isPySpace :=
        fun hm => hnin ((List.takeWhile_sublist _).mem hm)
      simp [htk, h5]
    · simp [hc]

theorem noHyphenBreak_joinWithCh : ∀ (segs : List (List Char)),
    (∀ s ∈ segs, ∀ c ∈ s, ¬ c = '\n') → allButLastHT segs = true →
    noHyphenBreak (joinWithCh '\n' segs) = true := by
  intro segs
  induction segs with
  | nil => intro _ _; rfl
  | cons s rest ih =>
    intro hfree hht
    cases rest with
    | nil => simpa [joinWithCh] using noHyphenBreak_of_nlfree (hfree s (by simp))
    | cons s2 r2 =>
      have hj : joinWithCh '\n' (s :: s2 :: r2)
          = s ++ '\n' :: joinWithCh '\n' (s2 :: r2) := rfl
      rw [hj]
      have hsplit : allButLastHT (s :: s2 :: r2)
          = (noHyphenTail s && allButLastHT (s2 :: r2)) := rfl
      rw [hsplit, Bool.and_eq_true] at hht
      exact noHyphenBreak_line_append _ (hfree s (by simp)) hht.1
        (ih (fun x hx => hfree x (by simp [hx])) hht.2)

theorem mem_split_nl : ∀ {w : List Char}, '\n' ∈ w →
    ∃ a r, w = a ++ '\n' :: r ∧ (∀ c ∈ a, ¬ c = '\n') := by
  intro w
  induction w with
  | nil => intro h; simp at h
  | cons c t ih =>
    intro h
    by_cases hc : c = '\n'
    · subst hc
      exact ⟨[], t, rfl, by simp⟩
    · have hm : '\n' ∈ t := by
        rcases List.mem_cons.mp h with h1 | h1
        · exact absurd h1.symm hc
        · exact h1
      obtain ⟨a, r, hw, hfree⟩ := ih hm
      refine ⟨c :: a, r, by rw [hw]; rfl, ?_⟩
      intro x hx
      rcases List.mem_cons.mp hx with h2 | h2
      · subst h2; exact hc
      · exact hfree x h2

theorem allButLastHT_splitOnCh : ∀ (N : Nat) (w : List Char), w.length ≤ N →
    noHyphenBreak w = true → allButLastHT (splitOnCh '\n' w) = true := by
  intro N
  induction N with
  | zero =>
    intro w hw _
    have hnil : w = [] := by
      cases w with
      | nil => rfl
      | cons c t => simp at hw
    subst hnil
    rfl
  | succ n ih =>
    intro w hw hnb
    by_cases hnl : '\n' ∈ w
    · obtain ⟨a, r, hwr, hafree⟩ := mem_split_nl hnl
      subst hwr
      rw [splitOnCh_append_sep r hafree]
      cases hs : splitOnCh '\n' r with
      | nil => exact absurd hs (splitOnCh_ne_nil _ _)
      | cons h0 tl =>
        have harm : allButLastHT (a :: h0 :: tl)
            = (noHyphenTail a && allButLastHT (h0 :: tl)) := rfl
        rw [harm, Bool.and_eq_true]
        constructor
        · exact noHyphenTail_of_break hafree hnb
        · rw [← hs]
          have hr : noHyphenBreak r = true := by
            have h3 := noHyphenBreak_append_right a _ hnb
            simp only [noHyphenBreak, Bool.and_eq_true] at h3
            exact h3.2
          apply ih r ?_ hr
          have hlen : (a ++ '\n' :: r).length = a.length + r.length + 1 := by
            simp [List.length_append]
            omega
          rw [hlen] at hw
          omega
    · rw [splitOnCh_sep_free (fun c hc he => hnl (by rw [← he]; exact hc))]
      rfl

theorem allButLastHT_map : ∀ {segs : List (List Char)},
    allButLastHT segs = true → allButLastHT (segs.map pyStripL) = true := by
  intro segs
  induction segs with
  | nil => intro _; rfl
  | cons s rest ih =>
    intro h
    cases rest with
    | nil => rfl
    | cons s2 r2 =>
      have harm : allButLastHT (s :: s2 :: r2)
          = (noHyphenTail s && allButLastHT (s2 :: r2)) := rfl
      rw [harm, Bool.and_eq_true] at h
      simp only [List.map_cons]
      have harm2 : allButLastHT (pyStripL s :: pyStripL s2 :: r2.map pyStripL)
          = (noHyphenTail (pyStripL s)
            && allButLastHT (pyStripL s2 :: r2.map pyStripL)) := rfl
      rw [harm2, Bool.and_eq_true]
      refine ⟨noHyphenTail_pyStripL h.1, ?_⟩
      have h2 := ih h.2
      simpa [List.map_cons] using h2

theorem noHyphenBreak_stripLines {w : List Char} (h : noHyphenBreak w = true) :
    noHyphenBreak (stripLines w) = true := by
  rw [stripLines]
  apply noHyphenBreak_joinWithCh
  · intro s hs c hc
    obtain ⟨s0, hs0, rfl⟩ := List.mem_map.mp hs
    exact mem_splitOnCh_sep_free s0 hs0 c (mem_pyStripL hc)
  · exact allButLastHT_map (allButLastHT_splitOnCh w.length w le_rfl h)

/-! ## Closure of stripped lines under the outer strip -/

theorem headNotWs_of_fix {l : List Char} (h : pyStripL l = l) :
    headNotWs l = true := by
  have h2 := edgeClean_pyStripL l
  rw [h] at h2
  simp only [edgeClean, Bool.and_eq_true] at h2
  exact h2.1

theorem dropWhile_ws_of_linesStripped : ∀ {x : List Char},
    linesStripped x = true →
    x.dropWhile isPySpace = x.dropWhile (fun c => c == '\n') := by
  intro x
  induction x with
  | nil => intro _; rfl
  | cons c t ih =>
    intro h
    by_cases hc : c = '\n'
    · subst hc
      have hlt : linesStripped t = true := by
        rw [linesStripped_split (splitOnCh_cons_sep '\n' t), Bool.and_eq_true] at h
        exact h.2
      have hws : isPySpace '\n' = true := by decide
      rw [List.dropWhile_cons, List.dropWhile_cons]
      simp only [hws, if_true, beq_self_eq_true]
      exact ih hlt
    · obtain ⟨hd, tl, hsr, hscons⟩ := splitOnCh_cons_ne t hc
      rw [linesStripped_split hscons, Bool.and_eq_true] at h
      have hfix : pyStripL (c :: hd) = c :: hd := by simpa using h.1
      have hh := headNotWs_of_fix hfix
      have hcf : isPySpace c = false := by simpa [headNotWs] using hh
      have hcb : (c == '\n') = false := by simp [hc]
      rw [List.dropWhile_cons, List.dropWhile_cons]
      simp [hcf, hcb]

theorem mem_splitOnCh_dropWhile {sep : Char} : ∀ (l : List Char),
    ∀ s ∈ splitOnCh sep (l.dropWhile (fun c => c == sep)),
      s = [] ∨ s ∈ splitOnCh sep l := by
  intro l
  induction l with
  | nil => intro s hs; right; exact hs
  | cons c t ih =>
    intro s hs
    by_cases hc : c = sep
    · subst hc
      rw [List.dropWhile_cons] at hs
      simp only [beq_self_eq_true, if_true] at hs
      rcases ih s hs with h1 | h1
      · left; exact h1
      · right
        rw [splitOnCh_cons_sep]
        exact List.mem_cons_of_mem _ h1
    · have hcb : (c == sep) = false := by simp [hc]
      rw [List.dropWhile_cons] at hs
      simp only [hcb, Bool.false_eq_true, if_false] at hs
      right
      exact hs

theorem linesStripped_dropNl {x : List Char} (h : linesStripped x = true) :
    linesStripped (x.dropWhile (fun c => c == '\n')) = true := by
  rw [linesStripped]
  simp only [List.all_eq_true]
  intro s hs
  rcases mem_splitOnCh_dropWhile x s hs with h1 | h1
  · subst h1; decide
  · have h2 := List.all_eq_true.mp h s h1
    simpa using h2

theorem linesStripped_reverse {x : List Char} :
    linesStripped x.reverse = linesStripped x := by
  rw [linesStripped, linesStripped, splitOnCh_reverse, List.all_reverse,
    List.all_map]
  rw [Bool.eq_iff_iff]
  simp only [List.all_eq_true, Function.comp]
  constructor
  · intro h s hs
    have h2 := h s hs
    have h3 : pyStripL s.reverse = s.reverse := by simpa using h2
    rw [pyStripL_reverse] at h3
    have h4 : pyStripL s = s := by
      have h5 := congrArg List.reverse h3
      simpa using h5
    simp [h4]
  · intro h s hs
    have h2 := h s hs
    have h3 : pyStripL s = s := by simpa using h2
    have h4 : pyStripL s.reverse = s.reverse := by rw [pyStripL_reverse, h3]
    simp [h4]

theorem linesStripped_pyStripL {x : List Char} (h : linesStripped x = true) :
    linesStripped (pyStripL x) = true := by
  have h1 : x.dropWhile isPySpace = x.dropWhile (fun c => c == '\n') :=
    dropWhile_ws_of_linesStripped h
  have hly : linesStripped (x.dropWhile (fun c => c == '\n')) = true :=
    linesStripped_dropNl h
  have hlyr : linesStripped (x.dropWhile (fun c => c == '\n')).reverse = true := by
    rw [linesStripped_reverse]
    exact hly
  have h3 : (x.dropWhile (fun c => c == '\n')).reverse.dropWhile isPySpace
      = (x.dropWhile (fun c => c == '\n')).reverse.dropWhile (fun c => c == '\n') :=
    dropWhile_ws_of_linesStripped hlyr
  show linesStripped
    (((x.dropWhile isPySpace).reverse.dropWhile isPySpace).reverse) = true
  rw [h1, h3, linesStripped_reverse]
  exact linesStripped_dropNl hlyr

theorem noBlankIssue_collapseNLGo : ∀ (l : List Char),
    (noBlankIssue false l = true →
      ∀ n, noBlankIssue false (collapseNLGo n l) = true) ∧
    (noBlankIssue true l = true →
      noBlankIssue true (collapseNLGo 0 l) = true) := by
  intro l
  induction l with
  | nil => exact ⟨fun _ _ => rfl, fun _ => rfl⟩
  | cons c t ih =>
    have hnb : isBlankCh '\n' = false := by decide
    constructor
    · intro h n
      by_cases hc : c = '\n'
      · subst hc
        rw [noBlankIssue_notBlank_head hnb] at h
        by_cases hn : n < 2
        · have hout : collapseNLGo n ('\n' :: t)
              = '\n' :: collapseNLGo (n + 1) t := by
            simp [collapseNLGo, hn]
          rw [hout, noBlankIssue_notBlank_head hnb]
          exact ih.1 h (n + 1)
        · have hout : collapseNLGo n ('\n' :: t) = collapseNLGo n t := by
            simp [collapseNLGo, hn]
          rw [hout]
          exact ih.1 h n
      · have hout : collapseNLGo n (c :: t) = c :: collapseNLGo 0 t := by
          simp [collapseNLGo, hc]
        rw [hout]
        by_cases hb : isBlankCh c = true
        · simp only [noBlankIssue, if_pos hb, Bool.and_eq_true] at h ⊢
          exact ⟨h.1, ih.2 h.2⟩
        · have hbf : isBlankCh c = false := by simpa using hb
          rw [noBlankIssue_notBlank_head hbf] at h
          rw [noBlankIssue_notBlank_head hbf]
          exact ih.1 h 0
    · intro h
      by_cases hc : c = '\n'
      · subst hc
        rw [noBlankIssue_notBlank_head hnb] at h
        have hout : collapseNLGo 0 ('\n' :: t) = '\n' :: collapseNLGo 1 t := by
          simp [collapseNLGo]
        rw [hout, noBlankIssue_notBlank_head hnb]
        exact ih.1 h 1
      · have hout : collapseNLGo 0 (c :: t) = c :: collapseNLGo 0 t := by
          simp [collapseNLGo, hc]
        rw [hout]
        by_cases hb : isBlankCh c = true
        · exfalso
          simp [noBlankIssue, hb] at h
        · have hbf : isBlankCh c = false := by simpa using hb
          rw [noBlankIssue_notBlank_head hbf] at h
          rw [noBlankIssue_notBlank_head hbf]
          exact ih.1 h 0

/-! ## The second pass of the Text Normalizer only collapses newlines -/

theorem cleanL_of_cleanInv {t : List Char} (h : cleanInv t = true) :
    cleanL t = collapseNL t := by
  simp only [cleanInv, Bool.and_eq_true] at h
  obtain ⟨⟨⟨hnb, hnh⟩, hls⟩, hec⟩ := h
  have h1 : collapseSpaces t = t := collapseSpacesGo_fix t false hnb
  have h2 : noHyphenBreak (collapseNL t) = true := noHyphenBreak_collapseNLGo t 0 hnh
  have h3 : removeHyphen (collapseNL t) = collapseNL t := removeHyphen_fix h2
  have h4 : linesStripped (collapseNL t) = true := linesStripped_collapseNL hls
  have h5 : stripLines (collapseNL t) = collapseNL t := stripLines_fix h4
  have h6 : edgeClean (collapseNL t) = true := edgeClean_collapseNL hec
  have h7 : pyStripL (collapseNL t) = collapseNL t := pyStripL_fix h6
  simp only [cleanL]
  rw [h1, h3, h5, h7]

theorem cleanInv_cleanL (l : List Char) : cleanInv (cleanL l) = true := by
  simp only [cleanInv, Bool.and_eq_true]
  refine ⟨⟨⟨?_, ?_⟩, ?_⟩, edgeClean_pyStripL _⟩
  · exact noBlankIssue_pyStripL (noBlankIssue_stripLines
      (noBlankIssue_removeHyphenGo _ _ false
        ((noBlankIssue_collapseNLGo _).1 (noBlankIssue_collapseSpacesGo l false) 0)))
  · exact noHyphenBreak_pyStripL (noHyphenBreak_stripLines
      (noHyphenBreak_removeHyphen _))
  · exact linesStripped_pyStripL (linesStripped_stripLines _)

/-- C4 counterexample: the Text Normalizer is not idempotent.  On
"a\n \n \n \nb" the first pass strips the blank lines into a run of four
newlines that the already-finished newline-collapsing stage never
revisits, so a second pass produces a different (shorter) string. -/
theorem C4_not_idempotent :
    clean_extracted_text (clean_extracted_text "a\n \n \n \nb")
      ≠ clean_extracted_text "a\n \n \n \nb" := by decide

set_option maxHeartbeats 2000000 in
/-- C4 (amended): a second application of `clean_extracted_text` is
exactly one more newline-collapsing pass over the first output; it is the
identity precisely when the first output has no run of three or more
newlines, and the normalizer always stabilizes from the second
application on. -/
theorem C4_second_pass (s : String) :
    clean_extracted_text (clean_extracted_text s)
      = ⟨collapseNL (clean_extracted_text s).data⟩ ∧
    (noTripleNL (clean_extracted_text s).data = true →
      clean_extracted_text (clean_extracted_text s) = clean_extracted_text s) ∧
    clean_extracted_text (clean_extracted_text (clean_extracted_text s))
      = clean_extracted_text (clean_extracted_text s) := by
  have hinv : cleanInv (cleanL s.data) = true := cleanInv_cleanL s.data
  have h1 : cleanL (cleanL s.data) = collapseNL (cleanL s.data) :=
    cleanL_of_cleanInv hinv
  refine ⟨congrArg String.mk h1, ?_, ?_⟩
  · intro hnt
    have h2 : collapseNL (cleanL s.data) = cleanL s.data := collapseNL_fix hnt
    exact congrArg String.mk (h1.trans h2)
  · have hinv2 : cleanInv (cleanL (cleanL s.data)) = true := cleanInv_cleanL _
    have h3 : cleanL (cleanL (cleanL s.data))
        = collapseNL (cleanL (cleanL s.data)) := cleanL_of_cleanInv hinv2
    have h4 : noTripleNL (cleanL (cleanL s.data)) = true := by
      rw [h1]
      exact noTripleNL_collapseNL _
    have h5 : collapseNL (cleanL (cleanL s.data)) = cleanL (cleanL s.data) :=
      collapseNL_fix h4
    exact congrArg String.mk (h3.trans h5)

/-- C4 witness: on a concrete document whose first normalization output
has no triple newline, the second pass is the identity. -/
theorem C4_second_pass_witness :
    noTripleNL (clean_extracted_text "a- \nb").data = true ∧
    clean_extracted_text (clean_extracted_text "a- \nb")
      = clean_extracted_text "a- \nb" :=
  ⟨by decide, (C4_second_pass "a- \nb").2.1 (by decide)⟩

end DDR
